import Mathlib

/-!
Verification of the OpenAPI-to-MCP tool conversion engine (`converter`) and
the dynamic dispatch engine (`handlers`) of the openapi-mcp-server repository
against its design specification.

The development is a shallow embedding of the TypeScript source: JavaScript
runtime values are modelled by `JsValue`, JavaScript truthiness is modelled
explicitly, JS objects and `Map`s become association lists with the exact
set/overwrite semantics of the source, and the network call inside the
dispatch handler becomes an oracle parameter, so that "no HTTP request is
issued" is expressible as "the result does not depend on the oracle".
-/

namespace OpenApiMcp

/-- A JavaScript runtime value, as found in an MCP argument bag or in an
OpenAPI document.  Numbers are modelled as integers; `bigint` is kept as a
separate constructor because `JSON.stringify` throws on it. -/
inductive JsValue where
  | null : JsValue
  | bool : Bool → JsValue
  | num : Int → JsValue
  | str : String → JsValue
  | arr : List JsValue → JsValue
  | obj : List (String × JsValue) → JsValue
  | bigint : Int → JsValue

/-- JavaScript truthiness of a value (`if (x)`). -/
def JsValue.truthy : JsValue → Bool
  | .null => false
  | .bool b => b
  | .num n => n != 0
  | .str s => s != ""
  | .arr _ => true
  | .obj _ => true
  | .bigint n => n != 0

/-- Truthiness of an optional string field (`undefined` and `""` are falsy). -/
def truthyStr : Option String → Bool
  | none => false
  | some s => s != ""

/-- Truthiness of an optional value field (`if (obj.field)`). -/
def truthyVal : Option JsValue → Bool
  | none => false
  | some v => v.truthy

/-- JavaScript `a || b` on optional strings: the left operand if it is truthy,
otherwise the right operand. -/
def strOr (a b : Option String) : Option String :=
  if truthyStr a then a else b

mutual

/-- JavaScript `String(v)` coercion.  Arrays stringify via `Array.join(',')`,
whose elements recurse (with `null` rendered as the empty string); plain
objects render as `"[object Object]"`. -/
def jsToString : JsValue → String
  | .null => "null"
  | .bool b => if b then "true" else "false"
  | .num n => toString n
  | .str s => s
  | .arr vs => joinComma vs
  | .obj _ => "[object Object]"
  | .bigint n => toString n

def joinComma : List JsValue → String
  | [] => ""
  | [v] => (match v with | .null => "" | _ => jsToString v)
  | v :: w :: vs =>
      (match v with | .null => "" | _ => jsToString v) ++ "," ++ joinComma (w :: vs)

end

/-! ## Tool name derivation (`converter`, lines 107–115, and its duplicate in
`handlers.buildOperationMap`, lines 52–56) -/

/-- One step of the sanitisation regex `replace(/[^a-zA-Z0-9_]/g, '_')`:
a character outside the ASCII class `[A-Za-z0-9_]` becomes an underscore. -/
def sanitizeChar (c : Char) : Char :=
  if c.isAlpha || c.isDigit || c = '_' then c else '_'

/-- `s.replace(/[^a-zA-Z0-9_]/g, '_')`. -/
def sanitize (s : String) : String :=
  ⟨s.data.map sanitizeChar⟩

/-- The fallback branch of `generateToolName`: sanitize the path, split on
underscores, drop the empty segments (`filter(p => p)`), re-join with
underscores and prepend the lower-cased method. -/
def fallbackToolName (method path : String) : String :=
  method.toLower ++ "_" ++
    String.intercalate "_" (((sanitize path).splitOn "_").filter (fun p => p != ""))

/-- `generateToolName(method, path, operationId)` from the converter:
if the operationId is truthy, its sanitisation is the name; otherwise the
fallback name is synthesized from method and path. -/
def generateToolName (method path : String) (operationId? : Option String) : String :=
  match operationId? with
  | some oid => if oid = "" then fallbackToolName method path else sanitize oid
  | none => fallbackToolName method path

/-- The duplicated name computation inside `buildOperationMap` (`handlers`,
lines 52–56): first sanitize `operation.operationId?.replace(...)`, then fall
back to the method/path synthesis when the result is falsy. -/
def handlersToolName (method path : String) (operationId? : Option String) : String :=
  match operationId?.map sanitize with
  | some t =>
      if t = "" then
        method.toLower ++ "_" ++
          String.intercalate "_" (((sanitize path).splitOn "_").filter (fun p => p != ""))
      else t
  | none =>
      method.toLower ++ "_" ++
        String.intercalate "_" (((sanitize path).splitOn "_").filter (fun p => p != ""))

theorem sanitizeChar_idem (c : Char) : sanitizeChar (sanitizeChar c) = sanitizeChar c := by
  by_cases h : c.isAlpha || c.isDigit || c = '_'
  · simp [sanitizeChar, h]
  · simp only [sanitizeChar, h, if_false]
    norm_num

theorem sanitize_sanitize (s : String) : sanitize (sanitize s) = sanitize s := by
  cases s with
  | mk l =>
    simp only [sanitize, List.map_map]
    congr 1
    apply List.map_congr_left
    intro c _
    exact sanitizeChar_idem c

theorem sanitize_eq_empty_iff (s : String) : sanitize s = "" ↔ s = "" := by
  cases s with
  | mk l =>
    constructor
    · intro h
      have hd : (sanitize ⟨l⟩).data = [] := by rw [h]
      simp [sanitize] at hd
      simp [hd]
    · intro h
      rw [h]
      rfl

theorem toolName_eq (method path : String) (operationId? : Option String) :
    generateToolName method path operationId? = handlersToolName method path operationId? := by
  cases operationId? with
  | none => rfl
  | some oid =>
    by_cases h : oid = ""
    · subst h
      simp [generateToolName, handlersToolName, fallbackToolName, sanitize]
    · have hs : sanitize oid ≠ "" := fun hc => h ((sanitize_eq_empty_iff oid).mp hc)
      simp [generateToolName, handlersToolName, h, hs]

/-- Claim C8: the tool-name sanitisation that replaces every character outside
`[A-Za-z0-9_]` with an underscore is idempotent — applying it to an
already-sanitised string returns that string unchanged. -/
theorem claim_C8_sanitize_idempotent (s : String) :
    sanitize (sanitize s) = sanitize s :=
  sanitize_sanitize s

/-- Claim C2: the tool name computed by the converter's `generateToolName`
and the name independently recomputed inside `buildOperationMap` agree as
functions of (method, path, optional operationId). -/
theorem claim_C2_toolname_agree (method path : String) (operationId? : Option String) :
    generateToolName method path operationId? = handlersToolName method path operationId? :=
  toolName_eq method path operationId?

/-! ## Schema translation (`converter`, lines 9–103) -/

/-- Whitespace as stripped by JavaScript `String.prototype.trim`
(the characters relevant to this code base). -/
def jsWs (c : Char) : Bool :=
  c = ' ' || c = '\t' || c = '\n' || c = '\r'

/-- JavaScript `.trim()`: strip whitespace from both ends. -/
def strTrim (s : String) : String :=
  ⟨((s.data.dropWhile jsWs).reverse.dropWhile jsWs).reverse⟩

/-- An OpenAPI schema node (`OpenAPIV3.SchemaObject | ReferenceObject`),
restricted to the fields the converter reads. -/
inductive OASchema where
  | ref : String → OASchema
  | node : (type? : Option String) → (format? : Option String) →
      (enumVals? : Option (List JsValue)) → (items? : Option OASchema) →
      (properties? : Option (List (String × OASchema))) →
      (required? : Option (List String)) → (description? : Option String) →
      (default? : Option JsValue) → OASchema

def OASchema.type? : OASchema → Option String
  | .ref _ => none
  | .node t _ _ _ _ _ _ _ => t

def OASchema.format? : OASchema → Option String
  | .ref _ => none
  | .node _ f _ _ _ _ _ _ => f

def OASchema.description? : OASchema → Option String
  | .ref _ => none
  | .node _ _ _ _ _ _ d _ => d

def OASchema.default? : OASchema → Option JsValue
  | .ref _ => none
  | .node _ _ _ _ _ _ _ df => df

/-- A JSON Schema 7 node, restricted to the fields the converter writes. -/
inductive JSchema where
  | mk : (type? : Option String) → (contentEncoding? : Option String) →
      (description? : Option String) → (enumVals? : Option (List JsValue)) →
      (items? : Option JSchema) → (properties? : Option (List (String × JSchema))) →
      (required? : Option (List String)) → (default? : Option JsValue) → JSchema

/-- The fresh `const jsSchema: JSONSchema7 = {}`. -/
def JSchema.empty : JSchema := .mk none none none none none none none none

def JSchema.type? : JSchema → Option String
  | .mk t _ _ _ _ _ _ _ => t

def JSchema.contentEncoding? : JSchema → Option String
  | .mk _ c _ _ _ _ _ _ => c

def JSchema.description? : JSchema → Option String
  | .mk _ _ d _ _ _ _ _ => d

def JSchema.enumVals? : JSchema → Option (List JsValue)
  | .mk _ _ _ e _ _ _ _ => e

def JSchema.items? : JSchema → Option JSchema
  | .mk _ _ _ _ i _ _ _ => i

def JSchema.properties? : JSchema → Option (List (String × JSchema))
  | .mk _ _ _ _ _ p _ _ => p

def JSchema.required? : JSchema → Option (List String)
  | .mk _ _ _ _ _ _ r _ => r

def JSchema.default? : JSchema → Option JsValue
  | .mk _ _ _ _ _ _ _ df => df

/-- `jsSchema.description = d`. -/
def JSchema.withDescription? (j : JSchema) (d : Option String) : JSchema :=
  match j with
  | .mk t c _ e i p r df => .mk t c d e i p r df

/-- `jsSchema.default = d`. -/
def JSchema.withDefault? (j : JSchema) (df : Option JsValue) : JSchema :=
  match j with
  | .mk t c d e i p r _ => .mk t c d e i p r df

/-- The note appended to the description of a string node with a
byte/binary format hint. -/
def binaryNote : String := " (Note: Binary content expected as base64 string)"

/-- The body of the converter's `switch (oaSchema.type)`: builds the basic
translated schema.  The recursively translated item/property schemas are
passed in already converted (the conversion is pure, so hoisting the
recursive calls out of the `array`/`object` branches is observationally
identical to the source).  A falsy (absent or empty) type, and the `default:`
branch for an unrecognized type, leave the schema unconstrained. -/
def convCore (type? format? : Option String) (enumVals? : Option (List JsValue))
    (its? : Option JSchema) (ps? : Option (List (String × JSchema)))
    (req? : Option (List String)) (desc? : Option String) : JSchema :=
  if truthyStr type? = false then JSchema.empty
  else if type?.getD "" = "integer" then
    .mk (some "integer") none none none none none none none
  else if type?.getD "" = "number" then
    .mk (some "number") none none none none none none none
  else if type?.getD "" = "string" then
    .mk (some "string")
      (if format? = some "byte" || format? = some "binary" then
        (if format? = some "byte" then some "base64" else none)
       else none)
      (if format? = some "byte" || format? = some "binary" then
        some (strTrim ((desc?.getD "") ++ binaryNote))
       else none)
      enumVals? none none none none
  else if type?.getD "" = "boolean" then
    .mk (some "boolean") none none none none none none none
  else if type?.getD "" = "array" then
    .mk (some "array") none none none its? none none none
  else if type?.getD "" = "object" then
    .mk (some "object") none none none none ps? req? none
  else JSchema.empty

/-- The two trailing carry-over statements of `openApiSchemaToJsonSchema`:
`if (oaSchema.description) jsSchema.description = jsSchema.description || oaSchema.description;`
`if (oaSchema.default) jsSchema.default = oaSchema.default;` -/
def carryOver (js : JSchema) (desc? : Option String) (default? : Option JsValue) : JSchema :=
  let js1 := if truthyStr desc? then js.withDescription? (strOr js.description? desc?) else js
  if truthyVal default? then js1.withDefault? default? else js1

mutual

/-- `openApiSchemaToJsonSchema` on a present input: a `$ref` node degrades to
the empty (accept-anything) schema with a warning; otherwise the type switch
runs, followed by the description/default carry-over. -/
def convSchema : OASchema → JSchema
  | .ref _ => JSchema.empty
  | .node type? format? enumVals? items? props? req? desc? default? =>
      carryOver
        (convCore type? format? enumVals?
          (match items? with
           | some i => some (convSchema i)
           | none => none)
          (match props? with
           | some l => some (convProps l)
           | none => none)
          req? desc?)
        desc? default?

/-- Conversion of an object node's properties, in key order.  The source
drops a property whose conversion comes back `undefined`; that cannot happen
for a property whose schema node is present, so every property is kept. -/
def convProps : List (String × OASchema) → List (String × JSchema)
  | [] => []
  | (k, s) :: rest => (k, convSchema s) :: convProps rest

end

/-- `openApiSchemaToJsonSchema(oaSchema)` including the `undefined` guard:
absent input gives absent output. -/
def openApiSchemaToJsonSchema : Option OASchema → Option JSchema
  | none => none
  | some s => some (convSchema s)

/-- A string node carrying a byte/binary format hint (the guard of the
binary-annotation branch). -/
def isBinaryStringNode (s : OASchema) : Bool :=
  s.type? = some "string" && (s.format? = some "byte" || s.format? = some "binary")

theorem convSchema_node (t f : Option String) (e : Option (List JsValue))
    (its : Option OASchema) (ps : Option (List (String × OASchema)))
    (r : Option (List String)) (d : Option String) (df : Option JsValue) :
    convSchema (OASchema.node t f e its ps r d df) =
      carryOver (convCore t f e (its.map convSchema) (ps.map convProps) r d) d df := by
  cases its <;> cases ps <;> rfl

theorem carryOver_default? (js : JSchema) (d : Option String) (df : Option JsValue) :
    (carryOver js d df).default? = if truthyVal df then df else js.default? := by
  unfold carryOver
  split
  · split <;> cases js <;> rfl
  · split <;> cases js <;> rfl

theorem carryOver_description? (js : JSchema) (d : Option String) (df : Option JsValue) :
    (carryOver js d df).description? =
      if truthyStr d then strOr js.description? d else js.description? := by
  unfold carryOver
  split
  · split <;> cases js <;> rfl
  · split <;> cases js <;> rfl

theorem convCore_default? (t f : Option String) (e : Option (List JsValue))
    (its : Option JSchema) (ps : Option (List (String × JSchema)))
    (r : Option (List String)) (d : Option String) :
    (convCore t f e its ps r d).default? = none := by
  unfold convCore
  split_ifs <;> rfl

theorem convCore_description? (t f : Option String) (e : Option (List JsValue))
    (its : Option JSchema) (ps : Option (List (String × JSchema)))
    (r : Option (List String)) (d : Option String) :
    (convCore t f e its ps r d).description? =
      if t = some "string" ∧ (f = some "byte" ∨ f = some "binary") then
        some (strTrim ((d.getD "") ++ binaryNote))
      else none := by
  by_cases hts : t = some "string" ∧ (f = some "byte" ∨ f = some "binary")
  · obtain ⟨h1, h2⟩ := hts
    subst h1
    rw [if_pos ⟨rfl, h2⟩]
    rcases h2 with h2 | h2 <;> subst h2 <;> rfl
  · rw [if_neg hts]
    unfold convCore
    by_cases h0 : truthyStr t = false
    · rw [if_pos h0]
      rfl
    · rw [if_neg h0]
      by_cases h1 : t.getD "" = "integer"
      · rw [if_pos h1]
        rfl
      · rw [if_neg h1]
        by_cases h2 : t.getD "" = "number"
        · rw [if_pos h2]
          rfl
        · rw [if_neg h2]
          by_cases h3 : t.getD "" = "string"
          · rw [if_pos h3]
            have ht : t = some "string" := by
              cases t with
              | none => simp [truthyStr] at h0
              | some v => simpa using congrArg some h3
            have hf : ¬ (f = some "byte" ∨ f = some "binary") := fun hc => hts ⟨ht, hc⟩
            have hf' : (decide (f = some "byte") || decide (f = some "binary")) = false := by
              push_neg at hf
              simp [hf.1, hf.2]
            simp only [JSchema.description?]
            simp [hf']
          · rw [if_neg h3]
            split_ifs <;> rfl

theorem mem_dropWhile_of_mem {p : Char → Bool} {l : List Char} {c : Char}
    (hc : c ∈ l) (hp : p c = false) : c ∈ l.dropWhile p := by
  have hsplit : l.takeWhile p ++ l.dropWhile p = l := List.takeWhile_append_dropWhile p l
  rw [← hsplit] at hc
  rcases List.mem_append.mp hc with h | h
  · have := List.mem_takeWhile_imp h
    rw [hp] at this
    cases this
  · exact h

theorem strTrim_ne_empty {s : String} {c : Char}
    (hc : c ∈ s.data) (hw : jsWs c = false) : strTrim s ≠ "" := by
  intro h
  have hdata : (strTrim s).data = [] := by rw [h]
  simp only [strTrim] at hdata
  rw [List.reverse_eq_nil_iff, List.dropWhile_eq_nil_iff] at hdata
  have h1 : c ∈ s.data.dropWhile jsWs := mem_dropWhile_of_mem hc hw
  have h2 : c ∈ (s.data.dropWhile jsWs).reverse := List.mem_reverse.mpr h1
  have := hdata c h2
  rw [hw] at this
  cases this

/-- The synthesized binary-format description is never the empty string, so
it is JavaScript-truthy and survives the `||` carry-over. -/
theorem binary_desc_truthy (d : String) :
    truthyStr (some (strTrim (d ++ binaryNote))) = true := by
  have hc : '(' ∈ (d ++ binaryNote).data := by
    have : '(' ∈ binaryNote.data := by decide
    rw [String.data_append]
    exact List.mem_append.mpr (Or.inr this)
  have := strTrim_ne_empty hc (by decide)
  simpa [truthyStr] using this

/-- Claim C3 (amended): the translator carries a schema node's description
and default value through only when they are JavaScript-truthy (a falsy
default such as `0` or `false` is dropped, see the counterexample); a truthy
description is carried through, except that the description synthesized for a
binary-format string node (which embeds the original description) is
preserved rather than overwritten. -/
theorem claim_C3_amended (s : OASchema) (href : ∀ r, s ≠ OASchema.ref r) :
    (truthyVal s.default? = true → (convSchema s).default? = s.default?)
    ∧ (truthyStr s.description? = true →
        (convSchema s).description? =
          some (if isBinaryStringNode s = true
            then strTrim ((s.description?.getD "") ++ binaryNote)
            else s.description?.getD "")) := by
  cases s with
  | ref r => exact absurd rfl (href r)
  | node t f e its ps r d df =>
    constructor
    · intro hdf
      simp only [OASchema.default?] at hdf ⊢
      rw [convSchema_node, carryOver_default?, if_pos hdf]
    · intro hd
      simp only [OASchema.description?] at hd ⊢
      rw [convSchema_node, carryOver_description?, if_pos hd, convCore_description?]
      by_cases hb : t = some "string" ∧ (f = some "byte" ∨ f = some "binary")
      · rw [if_pos hb]
        have hbs : isBinaryStringNode (OASchema.node t f e its ps r d df) = true := by
          simp only [isBinaryStringNode, OASchema.type?, OASchema.format?]
          rcases hb with ⟨h1, h2⟩
          rcases h2 with h2 | h2 <;> simp [h1, h2]
        have hdd : (OASchema.node t f e its ps r d df).description?.getD "" = d.getD "" := rfl
        rw [hbs, if_pos rfl]
        simp only [strOr, binary_desc_truthy, if_pos, hdd]
      · rw [if_neg hb]
        have hbs : isBinaryStringNode (OASchema.node t f e its ps r d df) = false := by
          simp only [isBinaryStringNode, OASchema.type?, OASchema.format?]
          by_cases h1 : t = some "string"
          · have h2 : ¬ (f = some "byte" ∨ f = some "binary") := fun hc => hb ⟨h1, hc⟩
            push_neg at h2
            simp [h1, h2.1, h2.2]
          · simp [h1]
        rw [hbs]
        simp only [Bool.false_eq_true, if_false, strOr, truthyStr]
        cases d with
        | none => simp [truthyStr] at hd
        | some dv =>
          have : dv ≠ "" := by simpa [truthyStr] using hd
          simp [this]

/-- The schema node of the C3 counterexample: an integer schema with the
(falsy) default value `0`. -/
def c3Schema : OASchema :=
  .node (some "integer") none none none none none none (some (.num 0))

/-- Claim C3 counterexample: a schema node that carries the default value `0`
translates to a schema with no default at all — `if (oaSchema.default)` is a
JavaScript truthiness test, so falsy defaults (`0`, `false`, `""`, `null`)
are not carried through. -/
theorem claim_C3_counterexample :
    c3Schema.default? = some (JsValue.num 0)
    ∧ openApiSchemaToJsonSchema (some c3Schema) = some (convSchema c3Schema)
    ∧ (convSchema c3Schema).default? = none :=
  ⟨rfl, rfl, rfl⟩

/-- The schema node of the C3 witness: a binary-format string node with a
truthy description and a truthy default. -/
def c3wSchema : OASchema :=
  .node (some "string") (some "binary") none none none none (some "doc") (some (.num 5))

theorem claim_C3_amended_witness :
    (convSchema c3wSchema).default? = some (JsValue.num 5)
    ∧ (convSchema c3wSchema).description? = some (strTrim ("doc" ++ binaryNote)) := by
  have h := claim_C3_amended c3wSchema (fun r hc => OASchema.noConfusion hc)
  refine ⟨?_, ?_⟩
  · have h1 := h.1 (by rfl)
    rw [h1]
    rfl
  · have h2 := h.2 (by rfl)
    rw [h2]
    rfl

/-! ## API document model and tool catalog builder (`converter`, lines
123–228; `handlers.buildOperationMap`, lines 33–72) -/

/-- An OpenAPI parameter object, restricted to the fields the engines read.
`loc` models the `in` field (`in` is a Lean keyword). -/
structure Param where
  name : String
  loc : String
  required : Bool := false
  description? : Option String := none
  schema? : Option OASchema := none

/-- A parameter list entry: a `$ref` (skipped with a warning by both engines)
or a parameter object. -/
inductive ParamOrRef where
  | ref : String → ParamOrRef
  | p : Param → ParamOrRef

/-- A media type object (only its `schema` field is read). -/
structure MediaType where
  schema? : Option OASchema := none

/-- A request body object. -/
structure RequestBody where
  required : Bool := false
  description? : Option String := none
  content? : Option (List (String × MediaType)) := none

/-- A request body entry: `$ref` or the object itself. -/
inductive RequestBodyOrRef where
  | ref : String → RequestBodyOrRef
  | rb : RequestBody → RequestBodyOrRef

/-- An OpenAPI operation object, restricted to the fields the engines read. -/
structure Operation where
  operationId? : Option String := none
  summary? : Option String := none
  description? : Option String := none
  parameters? : Option (List ParamOrRef) := none
  requestBody? : Option RequestBodyOrRef := none

/-- A path item: the operations under one path template, keyed by lower-case
method name, in the key order that `for (const method in pathItem)` visits.
JavaScript objects have no duplicate keys. -/
structure PathItem where
  entries : List (String × Option Operation)

/-- The OpenAPI document: its `paths` object, keyed by path template. -/
structure OpenAPIDocument where
  paths? : Option (List (String × Option PathItem)) := none

/-- The recognized HTTP verbs (`Object.values(OpenAPIV3.HttpMethods)`). -/
def httpMethods : List String :=
  ["get", "put", "post", "delete", "options", "head", "patch", "trace"]

/-- The (path, method, operation) triples one path item contributes to the
nested loops shared by the converter and `buildOperationMap`: keys that are
not recognized verbs, and falsy operations, are skipped. -/
def pathTriples (path : String) (item : PathItem) : List (String × String × Operation) :=
  item.entries.filterMap (fun e =>
    if e.1 ∈ httpMethods then e.2.map (fun op => (path, e.1, op)) else none)

/-- All (path, method, operation) triples of the document in visit order;
an absent `paths` object, or a falsy path item, contributes nothing. -/
def docTriples (doc : OpenAPIDocument) : List (String × String × Operation) :=
  match doc.paths? with
  | none => []
  | some ps => ps.flatMap (fun e =>
      match e.2 with
      | none => []
      | some item => pathTriples e.1 item)

/-- An MCP tool definition, restricted to the fields the converter writes. -/
structure Tool where
  name : String
  description : String
  inputSchema : JSchema

/-- JavaScript property assignment `o[k] = v` on an association list
(also `Map.set`): overwrite in place when the key exists, append otherwise. -/
def mapSet {α : Type} : List (String × α) → String → α → List (String × α)
  | [], k, v => [(k, v)]
  | (k', v') :: rest, k, v =>
      if k' = k then (k, v) :: rest else (k', v') :: mapSet rest k v

/-- One iteration of the converter's parameter loop: `$ref` entries are
skipped; a parameter whose schema translates to `undefined` (an absent
schema node) is dropped entirely; otherwise the translated schema gets the
parameter-level description when it has none, then the `(in: location)`
suffix, is inserted into the properties under the parameter name, and a
required parameter's name is appended to the required list. -/
def addParamStep (st : List (String × JSchema) × List String) (pr : ParamOrRef) :
    List (String × JSchema) × List String :=
  match pr with
  | .ref _ => st
  | .p param =>
    match openApiSchemaToJsonSchema param.schema? with
    | none => st
    | some ps0 =>
      let ps1 := if truthyStr param.description? && !(truthyStr ps0.description?) then
          ps0.withDescription? param.description?
        else ps0
      let ps2 := ps1.withDescription?
          (some (strTrim ((ps1.description?.getD "") ++ " (in: " ++ param.loc ++ ")")))
      (mapSet st.1 param.name ps2,
       if param.required then st.2 ++ [param.name] else st.2)

/-- `operation.requestBody.content?.['application/json']?.schema`. -/
def jsonContentSchema? (rb : RequestBody) : Option OASchema :=
  match rb.content? with
  | none => none
  | some l =>
    match l.lookup "application/json" with
    | none => none
    | some mt => mt.schema?

/-- The converter's requestBody block: a `$ref` is skipped with a warning;
when a JSON content schema exists its translation is inserted under the
fixed property name `requestBody` and the name is appended to the required
list when the body is required; a missing description is defaulted (the
source mutates the already-inserted object, which in this pure model is the
same as defaulting the description before insertion); any other content type
only warns. -/
def addBodyStep (op : Operation) (st : List (String × JSchema) × List String) :
    List (String × JSchema) × List String :=
  match op.requestBody? with
  | none => st
  | some (.ref _) => st
  | some (.rb rb) =>
    match jsonContentSchema? rb with
    | none => st
    | some sch =>
      match openApiSchemaToJsonSchema (some sch) with
      | none => st
      | some bs0 =>
        let bs1 := if !(truthyStr bs0.description?) then
            bs0.withDescription? (strOr rb.description? (some "The request body (JSON)"))
          else bs0
        (mapSet st.1 "requestBody" bs1,
         if rb.required then st.2 ++ ["requestBody"] else st.2)

/-- `operation.parameters` behind its `if (operation.parameters)` guard:
an absent list behaves like an empty one. -/
def paramList (op : Operation) : List ParamOrRef :=
  op.parameters?.getD []

/-- The input schema assembled for one operation: `{type: 'object',
properties, required}`, with the required list deleted when it ends up
empty. -/
def buildInputSchema (op : Operation) : JSchema :=
  let st := addBodyStep op ((paramList op).foldl addParamStep ([], []))
  .mk (some "object") none none none none (some st.1)
    (if st.2 = [] then none else some st.2) none

/-- The tool description:
`operation.summary || operation.description || "Perform {METHOD} on {path}"`. -/
def toolDescription (path method : String) (op : Operation) : String :=
  if truthyStr op.summary? then op.summary?.getD ""
  else if truthyStr op.description? then op.description?.getD ""
  else "Perform " ++ method.toUpper ++ " on " ++ path

/-- The tool pushed for one (path, method, operation) triple. -/
def buildTool (path method : String) (op : Operation) : Tool :=
  { name := generateToolName method path op.operationId?
    description := toolDescription path method op
    inputSchema := buildInputSchema op }

/-- `convertOpenAPIToMcTools(apiSpec)`: the nested path/method loops push one
tool per visited (path, method, operation) triple, in visit order, into the
published array — nothing deduplicates the array itself. -/
def convertOpenAPIToMcTools (doc : OpenAPIDocument) : List Tool :=
  (docTriples doc).map (fun t => buildTool t.1 t.2.1 t.2.2)

/-- The tool name of a visited triple (converter naming). -/
def tripleName (t : String × String × Operation) : String :=
  generateToolName t.2.1 t.1 t.2.2.operationId?

/-- An entry of the operation map built by `buildOperationMap`. -/
structure ToolOperationMapping where
  path : String
  method : String
  operation : Operation
  toolDefinition : Tool

/-- `new Map(tools.map(t => [t.name, t])).get(n)`: a `Map` built from a pair
list lets later duplicate keys overwrite earlier ones, so the lookup returns
the last tool carrying the requested name. -/
def toolMapGet (tools : List Tool) (n : String) : Option Tool :=
  (tools.filter (fun t => t.name == n)).getLast?

/-- The recomputed tool name of a triple inside `buildOperationMap`
(the duplicated naming logic). -/
def hToolName (t : String × String × Operation) : String :=
  handlersToolName t.2.1 t.1 t.2.2.operationId?

/-- One iteration of `buildOperationMap`'s loop body: recompute the tool
name with the duplicated logic, look the tool up, and `map.set` the entry
(a missing tool only warns and skips). -/
def opMapStep (tools : List Tool) (acc : List (String × ToolOperationMapping))
    (t : String × String × Operation) : List (String × ToolOperationMapping) :=
  match toolMapGet tools (hToolName t) with
  | some td => mapSet acc (hToolName t) ⟨t.1, t.2.1, t.2.2, td⟩
  | none => acc

/-- `buildOperationMap(apiSpec, tools)`. -/
def buildOperationMap (doc : OpenAPIDocument) (tools : List Tool) :
    List (String × ToolOperationMapping) :=
  (docTriples doc).foldl (opMapStep tools) []

/-- First colliding operation of the C1 counterexample. -/
def c1Op1 : Operation := { operationId? := some "a.b" }

/-- Second colliding operation of the C1 counterexample: a distinct
operation whose operationId sanitizes to the same tool name. -/
def c1Op2 : Operation := { operationId? := some "a b" }

/-- The C1 counterexample document: two distinct operations whose
operationIds both sanitize to the tool name `a_b`. -/
def c1Doc : OpenAPIDocument :=
  { paths? := some
      [("/a", some ⟨[("get", some c1Op1)]⟩),
       ("/b", some ⟨[("get", some c1Op2)]⟩)] }

theorem mem_keys_mapSet {α : Type} (l : List (String × α)) (k x : String) (v : α) :
    x ∈ (mapSet l k v).map Prod.fst ↔ x ∈ l.map Prod.fst ∨ x = k := by
  induction l with
  | nil => simp [mapSet]
  | cons e rest ih =>
    obtain ⟨k', v'⟩ := e
    by_cases h : k' = k
    · rw [show mapSet ((k', v') :: rest) k v = (k, v) :: rest from by simp [mapSet, h]]
      subst h
      simp only [List.map_cons, List.mem_cons]
      tauto
    · rw [show mapSet ((k', v') :: rest) k v = (k', v') :: mapSet rest k v from by
        simp [mapSet, h]]
      simp only [List.map_cons, List.mem_cons, ih]
      tauto

theorem keys_nodup_mapSet {α : Type} {l : List (String × α)} (h : (l.map Prod.fst).Nodup)
    (k : String) (v : α) : ((mapSet l k v).map Prod.fst).Nodup := by
  induction l with
  | nil => simp [mapSet]
  | cons e rest ih =>
    obtain ⟨k', v'⟩ := e
    rw [List.map_cons, List.nodup_cons] at h
    by_cases hk : k' = k
    · rw [show mapSet ((k', v') :: rest) k v = (k, v) :: rest from by simp [mapSet, hk]]
      rw [List.map_cons, List.nodup_cons]
      exact hk ▸ h
    · rw [show mapSet ((k', v') :: rest) k v = (k', v') :: mapSet rest k v from by
        simp [mapSet, hk]]
      rw [List.map_cons, List.nodup_cons]
      refine ⟨fun hmem => ?_, ih h.2⟩
      rcases (mem_keys_mapSet rest k k' v).mp hmem with hm | hm
      · exact h.1 hm
      · exact hk hm

theorem lookup_mapSet_self {α : Type} (l : List (String × α)) (k : String) (v : α) :
    List.lookup k (mapSet l k v) = some v := by
  induction l with
  | nil => simp [mapSet, List.lookup]
  | cons e rest ih =>
    obtain ⟨k', v'⟩ := e
    by_cases h : k' = k
    · subst h
      simp [mapSet, List.lookup]
    · have hne : (k == k') = false := beq_eq_false_iff_ne.mpr (Ne.symm h)
      simp [mapSet, if_neg h, List.lookup, hne, ih]

theorem lookup_mapSet_ne {α : Type} (l : List (String × α)) {k k' : String} (v : α)
    (h : k' ≠ k) : List.lookup k' (mapSet l k v) = List.lookup k' l := by
  induction l with
  | nil =>
    have hne : (k' == k) = false := beq_eq_false_iff_ne.mpr h
    simp [mapSet, List.lookup, hne]
  | cons e rest ih =>
    obtain ⟨k'', v''⟩ := e
    by_cases hk : k'' = k
    · subst hk
      have hne : (k' == k'') = false := beq_eq_false_iff_ne.mpr h
      simp [mapSet, List.lookup, hne]
    · simp [mapSet, if_neg hk, List.lookup, ih]

theorem find?_eq_head?_filter {α : Type} (q : α → Bool) (l : List α) :
    l.find? q = (l.filter q).head? := by
  induction l with
  | nil => rfl
  | cons a l ih =>
    by_cases h : q a
    · simp [List.find?_cons, List.filter_cons, h]
    · simp only [List.find?_cons, List.filter_cons, h, Bool.false_eq_true, if_false, cond_false]
      exact ih

theorem getLast?_filter_eq_find?_reverse {α : Type} (q : α → Bool) (l : List α) :
    (l.filter q).getLast? = l.reverse.find? q := by
  rw [List.getLast?_eq_head?_reverse, ← List.filter_reverse, find?_eq_head?_filter]

theorem find?_congr_mem {α : Type} {p q : α → Bool} :
    ∀ {l : List α}, (∀ x ∈ l, p x = q x) → l.find? p = l.find? q := by
  intro l
  induction l with
  | nil => intro _; rfl
  | cons a l ih =>
    intro h
    have ha := h a (List.mem_cons_self a l)
    by_cases hq : q a
    · simp [List.find?_cons, ha, hq]
    · have hp : p a = false := by rw [ha]; exact Bool.of_not_eq_true hq
      simp only [List.find?_cons, hp, cond_false, ha]
      have : q a = false := Bool.of_not_eq_true hq
      rw [this]
      exact ih (fun x hx => h x (List.mem_cons_of_mem a hx))

theorem toolMapGet_convert (doc : OpenAPIDocument) (n : String) :
    toolMapGet (convertOpenAPIToMcTools doc) n =
      ((docTriples doc).reverse.find? (fun t => tripleName t == n)).map
        (fun t => buildTool t.1 t.2.1 t.2.2) := by
  unfold toolMapGet convertOpenAPIToMcTools
  rw [List.filter_map, List.getLast?_map, getLast?_filter_eq_find?_reverse]
  rfl

theorem lookup_opMap_foldl (tools : List Tool) (n : String) :
    ∀ (ts : List (String × String × Operation)) (acc : List (String × ToolOperationMapping)),
      List.lookup n (ts.foldl (opMapStep tools) acc) =
        (ts.reverse.find? (fun t =>
            (hToolName t == n) && (toolMapGet tools (hToolName t)).isSome)).elim
          (List.lookup n acc)
          (fun t => (toolMapGet tools n).map
            (fun td => ⟨t.1, t.2.1, t.2.2, td⟩)) := by
  intro ts
  induction ts with
  | nil => intro acc; rfl
  | cons t ts ih =>
    intro acc
    rw [List.foldl_cons, ih, List.reverse_cons, List.find?_append]
    cases hfind : ts.reverse.find? (fun t =>
        (hToolName t == n) && (toolMapGet tools (hToolName t)).isSome) with
    | some u => rfl
    | none =>
      show _ = (Option.none.or (List.find? _ [t])).elim _ _
      rw [Option.none_or]
      show List.lookup n (opMapStep tools acc t) = _
      unfold opMapStep
      cases htm : toolMapGet tools (hToolName t) with
      | some td =>
        by_cases hn : hToolName t = n
        · have hbeq : (hToolName t == n) = true := beq_iff_eq.mpr hn
          have hpred : ((hToolName t == n) && (toolMapGet tools (hToolName t)).isSome) = true := by
            rw [hbeq, htm]
            rfl
          rw [show List.find? (fun t =>
              (hToolName t == n) && (toolMapGet tools (hToolName t)).isSome) [t] = some t from by
            simp [List.find?_cons, hpred]]
          show List.lookup n (mapSet acc (hToolName t) ⟨t.1, t.2.1, t.2.2, td⟩) = _
          rw [hn, lookup_mapSet_self]
          rw [← hn, htm]
          rfl
        · have hbeq : (hToolName t == n) = false := beq_eq_false_iff_ne.mpr hn
          have hpred : ((hToolName t == n) && (toolMapGet tools (hToolName t)).isSome) = false := by
            rw [hbeq]
            rfl
          rw [show List.find? (fun t =>
              (hToolName t == n) && (toolMapGet tools (hToolName t)).isSome) [t] = none from by
            simp [List.find?_cons, hpred]]
          show List.lookup n (mapSet acc (hToolName t) ⟨t.1, t.2.1, t.2.2, td⟩) = _
          rw [lookup_mapSet_ne _ _ (Ne.symm hn)]
          rfl
      | none =>
        have hpred : ((hToolName t == n) && (toolMapGet tools (hToolName t)).isSome) = false := by
          rw [htm]
          simp
        rw [show List.find? (fun t =>
            (hToolName t == n) && (toolMapGet tools (hToolName t)).isSome) [t] = none from by
          simp [List.find?_cons, hpred]]
        rfl

theorem keys_nodup_opMap_foldl (tools : List Tool) :
    ∀ (ts : List (String × String × Operation)) (acc : List (String × ToolOperationMapping)),
      (acc.map Prod.fst).Nodup → (((ts.foldl (opMapStep tools) acc)).map Prod.fst).Nodup := by
  intro ts
  induction ts with
  | nil => intro acc h; exact h
  | cons t ts ih =>
    intro acc h
    rw [List.foldl_cons]
    apply ih
    unfold opMapStep
    cases toolMapGet tools (hToolName t) with
    | some td => exact keys_nodup_mapSet h _ _
    | none => exact h

/-- Claim C1 (amended): when two distinct operations derive the same tool
name, the published list returned by the converter keeps BOTH tools — it has
exactly one entry per visited operation, in visit order (first conjunct).
The later-overwrites-earlier policy holds only in the Operation Index built
by `buildOperationMap`: its keys are duplicate-free (second conjunct) and
each name maps to the entry of the LAST visited triple deriving that name
(third conjunct). -/
theorem claim_C1_amended (doc : OpenAPIDocument) :
    ((convertOpenAPIToMcTools doc).map Tool.name = (docTriples doc).map tripleName)
    ∧ ((buildOperationMap doc (convertOpenAPIToMcTools doc)).map Prod.fst).Nodup
    ∧ ∀ n, List.lookup n (buildOperationMap doc (convertOpenAPIToMcTools doc)) =
        ((docTriples doc).reverse.find? (fun t => tripleName t == n)).map
          (fun t => { path := t.1, method := t.2.1, operation := t.2.2,
                      toolDefinition := buildTool t.1 t.2.1 t.2.2 }) := by
  refine ⟨?_, ?_, ?_⟩
  · unfold convertOpenAPIToMcTools
    rw [List.map_map]
    rfl
  · exact keys_nodup_opMap_foldl _ _ [] (by simp)
  · intro n
    unfold buildOperationMap
    rw [lookup_opMap_foldl]
    have hpred : ∀ x ∈ (docTriples doc).reverse,
        ((hToolName x == n)
          && (toolMapGet (convertOpenAPIToMcTools doc) (hToolName x)).isSome)
          = (tripleName x == n) := by
      intro x hx
      have hname : hToolName x = tripleName x := (toolName_eq _ _ _).symm
      rw [hname]
      by_cases hn : tripleName x = n
      · subst hn
        have hsome : (toolMapGet (convertOpenAPIToMcTools doc) (tripleName x)).isSome = true := by
          rw [toolMapGet_convert]
          cases hfind : (docTriples doc).reverse.find?
              (fun t => tripleName t == tripleName x) with
          | some u => rfl
          | none =>
            have hcontr := List.find?_eq_none.mp hfind x hx
            simp at hcontr
        rw [hsome]
        simp
      · have hne : (tripleName x == n) = false := beq_eq_false_iff_ne.mpr hn
        rw [hne]
        simp
    rw [find?_congr_mem hpred]
    cases hf : (docTriples doc).reverse.find? (fun t => tripleName t == n) with
    | none => rfl
    | some t =>
      show (toolMapGet (convertOpenAPIToMcTools doc) n).map _ = _
      rw [toolMapGet_convert, hf]
      rfl

/-- Claim C1 counterexample: two distinct operations sanitize to the same
tool name `a_b`, yet the published list returned by the converter contains
TWO tools with that name — the array `push` keeps both; nothing overwrites
anything in the published list. -/
theorem claim_C1_counterexample :
    c1Op1.operationId? ≠ c1Op2.operationId?
    ∧ tripleName ("/a", "get", c1Op1) = "a_b"
    ∧ tripleName ("/b", "get", c1Op2) = "a_b"
    ∧ ((convertOpenAPIToMcTools c1Doc).filter (fun t => t.name == "a_b")).length = 2 := by
  refine ⟨by decide, rfl, rfl, rfl⟩

/-! ## Dynamic dispatch engine (`handlers.createCallToolHandler`, lines
100–297).  The network call is an oracle parameter of `handleCallTool`; the
pure request construction up to the `fetch` call is `buildRequest`, so "no
HTTP request is issued" is "the outcome does not depend on the oracle". -/

/-- The protocol error codes used by the handler. -/
inductive McpErrorCode where
  | methodNotFound : McpErrorCode
  | invalidParams : McpErrorCode
  | internalError : McpErrorCode
deriving DecidableEq

/-- `McpError`: a protocol error code plus a message. -/
structure McpError where
  code : McpErrorCode
  message : String
deriving DecidableEq

/-- `Missing required parameter '{p}' for tool '{t}'.`  (The appends are
grouped to the right so that the literal prefix is one operand.) -/
def msgMissingParam (p t : String) : String :=
  "Missing required parameter '" ++ (p ++ ("' for tool '" ++ (t ++ "'.")))

/-- `Missing required requestBody for tool '{t}'.` -/
def msgMissingBody (t : String) : String :=
  "Missing required requestBody for tool '" ++ (t ++ "'.")

/-- `Failed to stringify requestBody for tool '{t}': {m}` -/
def msgStringify (t m : String) : String :=
  "Failed to stringify requestBody for tool '" ++ (t ++ ("': " ++ m))

/-- `Unsupported request body content type for tool '{t}'. Only
application/json is supported.` -/
def msgUnsupported (t : String) : String :=
  "Unsupported request body content type for tool '"
    ++ (t ++ "'. Only application/json is supported.")

/-- `Tool '{t}' not found.` -/
def msgNotFound (t : String) : String :=
  "Tool '" ++ (t ++ "' not found.")

/-- `API request failed: {m}` -/
def msgUpstream (m : String) : String :=
  "API request failed: " ++ m

/-- UTF-8 encoding of one character, as percent-encoders operate on it. -/
def utf8Bytes (c : Char) : List Nat :=
  let n := c.toNat
  if n < 0x80 then [n]
  else if n < 0x800 then [0xC0 + n / 0x40, 0x80 + n % 0x40]
  else if n < 0x10000 then
    [0xE0 + n / 0x1000, 0x80 + (n / 0x40) % 0x40, 0x80 + n % 0x40]
  else
    [0xF0 + n / 0x40000, 0x80 + (n / 0x1000) % 0x40, 0x80 + (n / 0x40) % 0x40,
     0x80 + n % 0x40]

/-- Upper-case hexadecimal digit. -/
def hexDigit (n : Nat) : Char :=
  if n < 10 then Char.ofNat ('0'.toNat + n) else Char.ofNat ('A'.toNat + n - 10)

/-- `%XX` percent-encoding of one byte. -/
def pctByte (b : Nat) : List Char :=
  ['%', hexDigit (b / 16), hexDigit (b % 16)]

/-- The characters `encodeURIComponent` leaves unescaped. -/
def uriUnreserved (c : Char) : Bool :=
  c.isAlpha || c.isDigit || c = '-' || c = '_' || c = '.' || c = '!'
    || c = '~' || c = '*' || c = '\'' || c = '(' || c = ')'

/-- JavaScript `encodeURIComponent`. -/
def encodeURIComponent (s : String) : String :=
  ⟨s.data.flatMap (fun c =>
    if uriUnreserved c then [c] else (utf8Bytes c).flatMap pctByte)⟩

/-- One character under `application/x-www-form-urlencoded` serialization
(`URLSearchParams.toString`): alphanumerics and `*-._` stay, space becomes
`+`, the rest is percent-encoded. -/
def formChar (c : Char) : List Char :=
  if c.isAlpha || c.isDigit || c = '*' || c = '-' || c = '.' || c = '_' then [c]
  else if c = ' ' then ['+']
  else (utf8Bytes c).flatMap pctByte

def formEncodeStr (s : String) : String :=
  ⟨s.data.flatMap formChar⟩

/-- `URLSearchParams.toString()`: `name=value` pairs joined by `&`. -/
def queryToString (q : List (String × String)) : String :=
  String.intercalate "&" (q.map (fun e => formEncodeStr e.1 ++ "=" ++ formEncodeStr e.2))

def replaceFirstAux (pat rep : List Char) : List Char → List Char
  | [] => []
  | c :: rest =>
    if pat.isPrefixOf (c :: rest) then rep ++ (c :: rest).drop pat.length
    else c :: replaceFirstAux pat rep rest

/-- JavaScript `String.prototype.replace` with a plain (non-regex) search
string: replaces only the FIRST occurrence; no occurrence leaves the string
unchanged. -/
def replaceFirst (s pat rep : String) : String :=
  ⟨replaceFirstAux pat.data rep.data s.data⟩

/-- `URLSearchParams.set(k, v)`: replace the first entry with that name in
place, delete any later ones; append when absent. -/
def searchSet : List (String × String) → String → String → List (String × String)
  | [], k, v => [(k, v)]
  | (k', v') :: rest, k, v =>
    if k' = k then (k, v) :: rest.filter (fun e => e.1 != k)
    else (k', v') :: searchSet rest k v

/-- `Headers.set(k, v)`: header names are case-insensitive, which the fetch
`Headers` class implements by lower-casing them; a set replaces any existing
value. -/
def headerSet (hs : List (String × String)) (k v : String) : List (String × String) :=
  mapSet hs k.toLower v

/-- `new Headers({'Accept': 'application/json'})`. -/
def defaultHeaders : List (String × String) := [("accept", "application/json")]

/-- The mutable request-construction state of the handler: `processedPath`,
`queryParams` and `headers`. -/
structure ReqState where
  path : String
  query : List (String × String)
  headers : List (String × String)

/-- The `switch (param.in)` placement of one supplied argument:
`path` substitutes the literal placeholder with the percent-encoded string
form; `query` appends one same-named entry per element of an array value and
sets non-array values once; `header` sets the string-coerced value;
`cookie` only warns, and an unknown location falls through the switch. -/
def placeParam (st : ReqState) (param : Param) (v : JsValue) : ReqState :=
  if param.loc = "path" then
    let holder := "\x7b" ++ param.name ++ "\x7d"
    { st with path := replaceFirst st.path holder (encodeURIComponent (jsToString v)) }
  else if param.loc = "query" then
    match v with
    | .arr vs => { st with query := st.query ++ vs.map (fun x => (param.name, jsToString x)) }
    | _ => { st with query := searchSet st.query param.name (jsToString v) }
  else if param.loc = "header" then
    { st with headers := headerSet st.headers param.name (jsToString v) }
  else st

/-- The handler's parameter loop: `$ref` entries are skipped; a required
parameter with no argument under its name aborts with `InvalidParams`
naming it; a supplied argument is placed per its location. -/
def processParams (toolName : String) (args : List (String × JsValue)) :
    List ParamOrRef → ReqState → Except McpError ReqState
  | [], st => .ok st
  | .ref _ :: rest, st => processParams toolName args rest st
  | .p param :: rest, st =>
    match List.lookup param.name args with
    | none =>
        if param.required then
          .error ⟨.invalidParams, msgMissingParam param.name toolName⟩
        else processParams toolName args rest st
    | some v => processParams toolName args rest (placeParam st param v)

/-- Lower-case hexadecimal digit (for `\u00XX` escapes). -/
def hexDigitLower (n : Nat) : Char :=
  if n < 10 then Char.ofNat ('0'.toNat + n) else Char.ofNat ('a'.toNat + n - 10)

/-- JSON string escaping of one character. -/
def escapeJsonChar (c : Char) : List Char :=
  if c = '"' then ['\\', '"']
  else if c = '\\' then ['\\', '\\']
  else if c = '\n' then ['\\', 'n']
  else if c = '\t' then ['\\', 't']
  else if c = '\r' then ['\\', 'r']
  else if c.toNat = 8 then ['\\', 'b']
  else if c.toNat = 12 then ['\\', 'f']
  else if c.toNat < 32 then
    ['\\', 'u', '0', '0', hexDigitLower (c.toNat / 16), hexDigitLower (c.toNat % 16)]
  else [c]

/-- A JSON string literal. -/
def quoteJson (s : String) : String :=
  "\"" ++ String.mk (s.data.flatMap escapeJsonChar) ++ "\""

mutual

/-- `JSON.stringify(v)` (compact form): fails — as the JS function throws —
on a BigInt anywhere inside the value. -/
def jsonStringify : JsValue → Except String String
  | .null => .ok "null"
  | .bool b => .ok (if b then "true" else "false")
  | .num n => .ok (toString n)
  | .str s => .ok (quoteJson s)
  | .bigint _ => .error "Do not know how to serialize a BigInt"
  | .arr vs => do
      let ss ← jsonStringifyList vs
      .ok ("[" ++ String.intercalate "," ss ++ "]")
  | .obj kvs => do
      let ss ← jsonStringifyProps kvs
      .ok ("\x7b" ++ String.intercalate "," ss ++ "\x7d")

def jsonStringifyList : List JsValue → Except String (List String)
  | [] => .ok []
  | v :: vs => do
      let s ← jsonStringify v
      let ss ← jsonStringifyList vs
      .ok (s :: ss)

def jsonStringifyProps : List (String × JsValue) → Except String (List String)
  | [] => .ok []
  | (k, v) :: kvs => do
      let s ← jsonStringify v
      let ss ← jsonStringifyProps kvs
      .ok ((quoteJson k ++ ":" ++ s) :: ss)

end

/-- `operation.requestBody.content?.['application/json']` of the dispatch
path: the presence of the media-type entry itself (its schema is not
consulted at dispatch time). -/
def jsonMedia? (rb : RequestBody) : Option MediaType :=
  match rb.content? with
  | none => none
  | some l => l.lookup "application/json"

/-- The handler's request-body block: a `$ref` is skipped with a warning; a
required body with no `requestBody` argument aborts with `InvalidParams`;
with a supplied value, a JSON content entry leads to `JSON.stringify` (a
serialization failure aborts with `InvalidParams` citing the tool), and a
missing JSON content entry aborts with the unsupported-content-type
`InvalidParams` error. -/
def bodyStage (toolName : String) (op : Operation) (args : List (String × JsValue))
    (st : ReqState) : Except McpError (ReqState × Option String) :=
  match op.requestBody? with
  | none => .ok (st, none)
  | some (.ref _) => .ok (st, none)
  | some (.rb rb) =>
    match List.lookup "requestBody" args with
    | none =>
        if rb.required then .error ⟨.invalidParams, msgMissingBody toolName⟩
        else .ok (st, none)
    | some v =>
        match jsonMedia? rb with
        | some _ =>
            match jsonStringify v with
            | .ok b =>
                .ok ({ st with
                        headers := headerSet st.headers "Content-Type" "application/json" },
                     some b)
            | .error m => .error ⟨.invalidParams, msgStringify toolName m⟩
        | none => .error ⟨.invalidParams, msgUnsupported toolName⟩

/-- The outbound HTTP request handed to `fetch`. -/
structure HttpRequest where
  method : String
  url : String
  headers : List (String × String)
  body? : Option String

/-- `` `${baseUrl}${processedPath}${queryParams.toString() ? `?${queryParams}` : ''}` ``. -/
def buildUrl (baseUrl : String) (st : ReqState) : String :=
  baseUrl ++ st.path
    ++ (if queryToString st.query = "" then "" else "?" ++ queryToString st.query)

/-- The pure request construction of the CallTool handler, from the resolved
mapping up to (but excluding) the `fetch` call. -/
def buildRequest (baseUrl toolName : String) (mapping : ToolOperationMapping)
    (args : List (String × JsValue)) : Except McpError HttpRequest :=
  match processParams toolName args (paramList mapping.operation)
      ⟨mapping.path, [], defaultHeaders⟩ with
  | .error e => .error e
  | .ok st =>
    match bodyStage toolName mapping.operation args st with
    | .error e => .error e
    | .ok (st', body?) =>
        .ok { method := mapping.method.toUpper, url := buildUrl baseUrl st',
              headers := st'.headers, body? := body? }

/-- The upstream HTTP response as the handler observes it: status, status
text, headers (lower-cased names, as the fetch `Headers` API exposes them)
and the result of `response.text()`, which may reject. -/
structure HttpResponse where
  status : Nat
  statusText : String
  headers : List (String × String)
  bodyText : Except String String

/-- `response.ok`: status in the inclusive-exclusive range [200, 300). -/
def HttpResponse.ok (r : HttpResponse) : Bool :=
  200 ≤ r.status && r.status < 300

/-- The CallTool result payload: one text content plus the error flag. -/
structure CallResult where
  text : String
  isError : Bool

def isJsonWsChar (c : Char) : Bool :=
  c = ' ' || c = '\t' || c = '\n' || c = '\r'

def skipJsonWs (l : List Char) : List Char :=
  l.dropWhile isJsonWsChar

def digitsToNat (ds : List Char) : Nat :=
  ds.foldl (fun acc c => acc * 10 + (c.toNat - '0'.toNat)) 0

/-- The `{` character (written by code point to keep braces out of
literals). -/
def openBrace : Char := Char.ofNat 123

/-- The `}` character. -/
def closeBrace : Char := Char.ofNat 125

/-- JSON string-body parser (after the opening quote), fueled.  `\uXXXX`
escapes are not decoded: they make this best-effort model of `JSON.parse`
fail, which only downgrades the pretty-printing below to raw passthrough. -/
def parseJsonStringAux : Nat → List Char → Option (List Char × List Char)
  | _, [] => none
  | 0, _ => none
  | fuel+1, c :: rest =>
    if c = '"' then some ([], rest)
    else if c = '\\' then
      match rest with
      | [] => none
      | e :: rest2 =>
        let dec? : Option Char :=
          if e = '"' then some '"'
          else if e = '\\' then some '\\'
          else if e = '/' then some '/'
          else if e = 'n' then some '\n'
          else if e = 't' then some '\t'
          else if e = 'r' then some '\r'
          else if e = 'b' then some (Char.ofNat 8)
          else if e = 'f' then some (Char.ofNat 12)
          else none
        match dec? with
        | none => none
        | some ch =>
          match parseJsonStringAux fuel rest2 with
          | none => none
          | some (cs, rem) => some (ch :: cs, rem)
    else
      match parseJsonStringAux fuel rest with
      | none => none
      | some (cs, rem) => some (c :: cs, rem)

mutual

/-- Fueled best-effort model of `JSON.parse` for one value.  Integral
numbers only; fractions, exponents and `\u` escapes fail the parse, and the
object/array parsers accept a trailing comma the real parser rejects — no
claim depends on these corners, where failure merely passes the raw body
text through unformatted. -/
def parseJsonVal : Nat → List Char → Option (JsValue × List Char)
  | 0, _ => none
  | fuel+1, l =>
    match skipJsonWs l with
    | [] => none
    | c :: rest =>
      if c = 'n' then
        (if rest.take 3 = ['u', 'l', 'l'] then some (.null, rest.drop 3) else none)
      else if c = 't' then
        (if rest.take 3 = ['r', 'u', 'e'] then some (.bool true, rest.drop 3) else none)
      else if c = 'f' then
        (if rest.take 4 = ['a', 'l', 's', 'e'] then some (.bool false, rest.drop 4) else none)
      else if c = '"' then
        match parseJsonStringAux (rest.length + 1) rest with
        | some (cs, rem) => some (.str (String.mk cs), rem)
        | none => none
      else if c = '[' then
        match parseJsonArrRest fuel rest with
        | some (vs, rem) => some (.arr vs, rem)
        | none => none
      else if c = openBrace then
        match parseJsonObjRest fuel rest with
        | some (kvs, rem) => some (.obj kvs, rem)
        | none => none
      else
        match (if c = '-' then (true, rest) else (false, c :: rest)) with
        | (neg, l2) =>
          match l2 with
          | [] => none
          | d :: _ =>
            if d.isDigit then
              some (.num (if neg then -(Int.ofNat (digitsToNat (l2.takeWhile Char.isDigit)))
                          else Int.ofNat (digitsToNat (l2.takeWhile Char.isDigit))),
                    l2.dropWhile Char.isDigit)
            else none

def parseJsonArrRest : Nat → List Char → Option (List JsValue × List Char)
  | 0, _ => none
  | fuel+1, l =>
    match skipJsonWs l with
    | ']' :: rest => some ([], rest)
    | l1 =>
      match parseJsonVal fuel l1 with
      | none => none
      | some (v, rem) =>
        match skipJsonWs rem with
        | ',' :: rem2 =>
          match parseJsonArrRest fuel rem2 with
          | none => none
          | some (vs, rem3) => some (v :: vs, rem3)
        | ']' :: rem2 => some ([v], rem2)
        | _ => none

def parseJsonObjRest : Nat → List Char → Option (List (String × JsValue) × List Char)
  | 0, _ => none
  | fuel+1, l =>
    match skipJsonWs l with
    | [] => none
    | c :: rest =>
      if c = closeBrace then some ([], rest)
      else if c = '"' then
        match parseJsonStringAux (rest.length + 1) rest with
        | none => none
        | some (ks, rem) =>
          match skipJsonWs rem with
          | ':' :: rem2 =>
            match parseJsonVal fuel rem2 with
            | none => none
            | some (v, rem3) =>
              match skipJsonWs rem3 with
              | ',' :: rem4 =>
                match parseJsonObjRest fuel rem4 with
                | none => none
                | some (kvs, rem5) => some ((String.mk ks, v) :: kvs, rem5)
              | c2 :: rem4 =>
                if c2 = closeBrace then some ([(String.mk ks, v)], rem4) else none
              | [] => none
          | _ => none
      else none

end

/-- `JSON.parse` on a whole body: the parsed value, provided the remainder
is only whitespace. -/
def jsonParse (s : String) : Option JsValue :=
  match parseJsonVal (2 * s.length + 4) s.data with
  | none => none
  | some (v, rem) => if skipJsonWs rem = [] then some v else none

def nSpaces (n : Nat) : String := String.mk (List.replicate n ' ')

mutual

/-- `JSON.stringify(v, null, 2)`: the two-space-indented pretty printer the
handler applies to a parsed JSON response body. -/
def prettyJson : JsValue → Nat → Except String String
  | .null, _ => .ok "null"
  | .bool b, _ => .ok (if b then "true" else "false")
  | .num n, _ => .ok (toString n)
  | .str s, _ => .ok (quoteJson s)
  | .bigint _, _ => .error "Do not know how to serialize a BigInt"
  | .arr [], _ => .ok "[]"
  | .arr (v :: vs), ind => do
      let ss ← prettyJsonList (v :: vs) (ind + 2)
      .ok ("[\n" ++ String.intercalate ",\n" ss ++ "\n" ++ nSpaces ind ++ "]")
  | .obj [], _ => .ok "\x7b\x7d"
  | .obj (kv :: kvs), ind => do
      let ss ← prettyJsonProps (kv :: kvs) (ind + 2)
      .ok ("\x7b\n" ++ String.intercalate ",\n" ss ++ "\n" ++ nSpaces ind ++ "\x7d")

def prettyJsonList : List JsValue → Nat → Except String (List String)
  | [], _ => .ok []
  | v :: vs, ind => do
      let s ← prettyJson v ind
      let ss ← prettyJsonList vs ind
      .ok ((nSpaces ind ++ s) :: ss)

def prettyJsonProps : List (String × JsValue) → Nat → Except String (List String)
  | [], _ => .ok []
  | (k, v) :: kvs, ind => do
      let s ← prettyJson v ind
      let ss ← prettyJsonProps kvs ind
      .ok ((nSpaces ind ++ quoteJson k ++ ": " ++ s) :: ss)

end

/-- `hay.includes(sub)` on character lists. -/
def containsSub : List Char → List Char → Bool
  | [], pat => pat.isEmpty
  | c :: rest, pat => pat.isPrefixOf (c :: rest) || containsSub rest pat

/-- JavaScript `String.prototype.includes`. -/
def strIncludes (s sub : String) : Bool :=
  containsSub s.data sub.data

/-- `Object.fromEntries(headers.entries())`: later duplicate keys overwrite
earlier ones. -/
def headersToObj (hs : List (String × String)) : List (String × JsValue) :=
  hs.foldl (fun acc e => mapSet acc e.1 (.str e.2)) []

/-- `JSON.stringify(Object.fromEntries(response.headers.entries()), null, 2)`;
string values always serialize, so the error branch is unreachable. -/
def headersJson (hs : List (String × String)) : String :=
  match prettyJson (.obj (headersToObj hs)) 0 with
  | .ok s => s
  | .error _ => ""

/-- Response normalization (`handlers`, lines 259–295): a failed body read
still yields a RESULT whose error flag tracks `response.ok`; otherwise a
JSON content type triggers a parse/pretty-print attempt (falling back to the
raw text), and the composed status/headers/body text is returned with
`isError := !response.ok`.  This function cannot fail. -/
def processResponse (toolName : String) (r : HttpResponse) : CallResult :=
  match r.bodyText with
  | .error msg =>
      { text := "API call successful (" ++ toString r.status ++ " " ++ r.statusText
          ++ ") but failed to read response body: " ++ msg,
        isError := !r.ok }
  | .ok bodyText =>
      let formatted :=
        match List.lookup "content-type" r.headers with
        | some ct =>
            if strIncludes ct "application/json" && bodyText != "" then
              match jsonParse bodyText with
              | some j =>
                  match prettyJson j 0 with
                  | .ok pp => pp
                  | .error _ => bodyText
              | none => bodyText
            else bodyText
        | none => bodyText
      { text := "Status: " ++ toString r.status ++ " " ++ r.statusText
          ++ "\nHeaders:\n" ++ headersJson r.headers ++ "\n\nBody:\n" ++ formatted,
        isError := !r.ok }

/-- The CallTool handler: resolve the tool name in the operation map
(`MethodNotFound` when absent), build the request, perform the network call
— modelled by the `fetchResult` oracle, whose rejection becomes the
`InternalError` upstream failure — and normalize the response. -/
def handleCallTool (baseUrl : String) (opMap : List (String × ToolOperationMapping))
    (toolName : String) (args : List (String × JsValue))
    (fetchResult : Except String HttpResponse) : Except McpError CallResult :=
  match List.lookup toolName opMap with
  | none => .error ⟨.methodNotFound, msgNotFound toolName⟩
  | some mapping =>
    match buildRequest baseUrl toolName mapping args with
    | .error e => .error e
    | .ok _req =>
      match fetchResult with
      | .error msg => .error ⟨.internalError, msgUpstream msg⟩
      | .ok resp => .ok (processResponse toolName resp)

/-! ## Dispatch error analysis: the four `InvalidParams` message shapes are
pairwise distinguishable, and the missing-parameter message determines the
parameter name. -/

theorem string_data_append (a b : String) : (a ++ b).data = a.data ++ b.data := by
  cases a
  cases b
  rfl

theorem string_ext {a b : String} (h : a.data = b.data) : a = b := by
  cases a
  cases b
  rw [show String.mk _ = String.mk _ from congrArg String.mk h]

theorem msgMissingParam_get17 (p t : String) :
    (msgMissingParam p t).data.get? 17 = some 'p' := by
  unfold msgMissingParam
  rw [string_data_append, List.get?_append (by decide)]
  decide

theorem msgMissingBody_get17 (t : String) :
    (msgMissingBody t).data.get? 17 = some 'r' := by
  unfold msgMissingBody
  rw [string_data_append, List.get?_append (by decide)]
  decide

theorem msgMissingParam_get0 (p t : String) :
    (msgMissingParam p t).data.get? 0 = some 'M' := by
  unfold msgMissingParam
  rw [string_data_append, List.get?_append (by decide)]
  decide

theorem msgStringify_get0 (t m : String) :
    (msgStringify t m).data.get? 0 = some 'F' := by
  unfold msgStringify
  rw [string_data_append, List.get?_append (by decide)]
  decide

theorem msgUnsupported_get0 (t : String) :
    (msgUnsupported t).data.get? 0 = some 'U' := by
  unfold msgUnsupported
  rw [string_data_append, List.get?_append (by decide)]
  decide

theorem msgMissingBody_ne_missingParam (t p t' : String) :
    msgMissingBody t ≠ msgMissingParam p t' := by
  intro h
  have h17 := congrArg (fun s => s.data.get? 17) h
  simp only [msgMissingBody_get17, msgMissingParam_get17] at h17
  cases h17

theorem msgStringify_ne_missingParam (t m p t' : String) :
    msgStringify t m ≠ msgMissingParam p t' := by
  intro h
  have h0 := congrArg (fun s => s.data.get? 0) h
  simp only [msgStringify_get0, msgMissingParam_get0] at h0
  cases h0

theorem msgUnsupported_ne_missingParam (t p t' : String) :
    msgUnsupported t ≠ msgMissingParam p t' := by
  intro h
  have h0 := congrArg (fun s => s.data.get? 0) h
  simp only [msgUnsupported_get0, msgMissingParam_get0] at h0
  cases h0

theorem msgUnsupported_ne_missingBody (t t' : String) :
    msgUnsupported t ≠ msgMissingBody t' := by
  intro h
  have h0 := congrArg (fun s => s.data.get? 0) h
  have hb : (msgMissingBody t').data.get? 0 = some 'M' := by
    unfold msgMissingBody
    rw [string_data_append, List.get?_append (by decide)]
    decide
  simp only [msgUnsupported_get0, hb] at h0
  cases h0

theorem msgUnsupported_ne_stringify (t t' m : String) :
    msgUnsupported t ≠ msgStringify t' m := by
  intro h
  have h0 := congrArg (fun s => s.data.get? 0) h
  simp only [msgUnsupported_get0, msgStringify_get0] at h0
  cases h0

theorem msgMissingParam_inj {p q t : String}
    (h : msgMissingParam p t = msgMissingParam q t) : p = q := by
  unfold msgMissingParam at h
  have hd := congrArg String.data h
  rw [string_data_append, string_data_append] at hd
  have h1 := List.append_cancel_left hd
  have h2 : p ++ ("' for tool '" ++ (t ++ "'.")) = q ++ ("' for tool '" ++ (t ++ "'.")) :=
    string_ext h1
  have h3 := congrArg String.data h2
  rw [string_data_append, string_data_append] at h3
  exact string_ext (List.append_cancel_right h3)

/-! ## Behaviour of the parameter loop and body stage -/

/-- The first required parameter with no argument under its name, in
declaration order — the one the handler's loop reports. -/
def firstMissingRequired (args : List (String × JsValue)) : List ParamOrRef → Option Param
  | [] => none
  | .ref _ :: rest => firstMissingRequired args rest
  | .p param :: rest =>
    match List.lookup param.name args with
    | none => if param.required then some param else firstMissingRequired args rest
    | some _ => firstMissingRequired args rest

theorem firstMissingRequired_spec (args : List (String × JsValue)) :
    ∀ (ps : List ParamOrRef) (param : Param),
      firstMissingRequired args ps = some param →
      param.required = true ∧ List.lookup param.name args = none := by
  intro ps
  induction ps with
  | nil => intro param h; cases h
  | cons pr rest ih =>
    intro param h
    cases pr with
    | ref r => exact ih param h
    | p q =>
      unfold firstMissingRequired at h
      cases hl : List.lookup q.name args with
      | none =>
        rw [hl] at h
        by_cases hr : q.required
        · rw [if_pos hr] at h
          cases h
          exact ⟨hr, hl⟩
        · rw [if_neg hr] at h
          exact ih param h
      | some v =>
        rw [hl] at h
        exact ih param h

theorem processParams_first_missing (toolName : String) (args : List (String × JsValue)) :
    ∀ (ps : List ParamOrRef) (st : ReqState) (param : Param),
      firstMissingRequired args ps = some param →
      processParams toolName args ps st =
        .error ⟨.invalidParams, msgMissingParam param.name toolName⟩ := by
  intro ps
  induction ps with
  | nil => intro st param h; cases h
  | cons pr rest ih =>
    intro st param h
    cases pr with
    | ref r => exact ih st param h
    | p q =>
      unfold firstMissingRequired at h
      unfold processParams
      cases hl : List.lookup q.name args with
      | none =>
        rw [hl] at h
        by_cases hr : q.required
        · rw [if_pos hr] at h
          cases h
          rw [if_pos hr]
        · rw [if_neg hr] at h
          rw [if_neg hr]
          exact ih st param h
      | some v =>
        rw [hl] at h
        exact ih _ param h

theorem processParams_error_missing (toolName : String) (args : List (String × JsValue)) :
    ∀ (ps : List ParamOrRef) (st : ReqState) (e : McpError),
      processParams toolName args ps st = .error e →
      ∃ q : Param, ParamOrRef.p q ∈ ps ∧ q.required = true
        ∧ List.lookup q.name args = none
        ∧ e = ⟨.invalidParams, msgMissingParam q.name toolName⟩ := by
  intro ps
  induction ps with
  | nil => intro st e h; cases h
  | cons pr rest ih =>
    intro st e h
    cases pr with
    | ref r =>
      obtain ⟨q, hq1, hq2, hq3, hq4⟩ := ih st e h
      exact ⟨q, List.mem_cons_of_mem _ hq1, hq2, hq3, hq4⟩
    | p q =>
      unfold processParams at h
      cases hl : List.lookup q.name args with
      | none =>
        rw [hl] at h
        by_cases hr : q.required
        · rw [if_pos hr] at h
          cases h
          exact ⟨q, List.mem_cons_self _ _, hr, hl, rfl⟩
        · rw [if_neg hr] at h
          obtain ⟨q', hq1, hq2, hq3, hq4⟩ := ih st e h
          exact ⟨q', List.mem_cons_of_mem _ hq1, hq2, hq3, hq4⟩
      | some v =>
        rw [hl] at h
        obtain ⟨q', hq1, hq2, hq3, hq4⟩ := ih _ e h
        exact ⟨q', List.mem_cons_of_mem _ hq1, hq2, hq3, hq4⟩

theorem processParams_error_of_missing (toolName : String) (args : List (String × JsValue)) :
    ∀ (ps : List ParamOrRef),
      (∃ q : Param, ParamOrRef.p q ∈ ps ∧ q.required = true
        ∧ List.lookup q.name args = none) →
      ∀ st : ReqState, ∃ e : McpError,
        processParams toolName args ps st = .error e ∧ e.code = .invalidParams := by
  intro ps
  induction ps with
  | nil =>
    rintro ⟨q, hq, _, _⟩
    cases hq
  | cons pr rest ih =>
    rintro ⟨q, hq, hreq, hmiss⟩ st
    cases pr with
    | ref r =>
      rcases List.mem_cons.mp hq with hq' | hq'
      · cases hq'
      · exact ih ⟨q, hq', hreq, hmiss⟩ st
    | p q' =>
      unfold processParams
      cases hl : List.lookup q'.name args with
      | none =>
        by_cases hr : q'.required
        · exact ⟨⟨.invalidParams, msgMissingParam q'.name toolName⟩, by rw [if_pos hr], rfl⟩
        · rcases List.mem_cons.mp hq with hq' | hq2
          · cases hq'
            exact absurd hreq hr
          · rw [if_neg hr]
            exact ih ⟨q, hq2, hreq, hmiss⟩ st
      | some v =>
        rcases List.mem_cons.mp hq with hq' | hq2
        · cases hq'
          rw [hl] at hmiss
          cases hmiss
        · exact ih ⟨q, hq2, hreq, hmiss⟩ (placeParam st q' v)

/-- Every error of the body stage carries the `InvalidParams` code and one of
the three body messages. -/
theorem bodyStage_error_form (toolName : String) (op : Operation)
    (args : List (String × JsValue)) (st : ReqState) (e : McpError)
    (h : bodyStage toolName op args st = .error e) :
    e.code = .invalidParams
    ∧ (e.message = msgMissingBody toolName
       ∨ (∃ m, e.message = msgStringify toolName m)
       ∨ e.message = msgUnsupported toolName) := by
  unfold bodyStage at h
  split at h
  · cases h
  · cases h
  · split at h
    · split at h
      · cases h
        exact ⟨rfl, Or.inl rfl⟩
      · cases h
    · split at h
      · split at h
        · cases h
        · cases h
          exact ⟨rfl, Or.inr (Or.inl ⟨_, rfl⟩)⟩
      · cases h
        exact ⟨rfl, Or.inr (Or.inr rfl)⟩

/-! ## Composition lemmas for the handler -/

theorem buildRequest_error_params (baseUrl toolName : String)
    (mapping : ToolOperationMapping) (args : List (String × JsValue)) (e : McpError)
    (h : processParams toolName args (paramList mapping.operation)
        ⟨mapping.path, [], defaultHeaders⟩ = .error e) :
    buildRequest baseUrl toolName mapping args = .error e := by
  simp only [buildRequest, h]

theorem buildRequest_error_body (baseUrl toolName : String)
    (mapping : ToolOperationMapping) (args : List (String × JsValue))
    (st : ReqState) (e : McpError)
    (h1 : processParams toolName args (paramList mapping.operation)
        ⟨mapping.path, [], defaultHeaders⟩ = .ok st)
    (h2 : bodyStage toolName mapping.operation args st = .error e) :
    buildRequest baseUrl toolName mapping args = .error e := by
  simp only [buildRequest, h1, h2]

theorem handleCallTool_error_of_buildRequest (baseUrl toolName : String)
    (opMap : List (String × ToolOperationMapping)) (mapping : ToolOperationMapping)
    (args : List (String × JsValue)) (e : McpError)
    (hmap : List.lookup toolName opMap = some mapping)
    (hbr : buildRequest baseUrl toolName mapping args = .error e) :
    ∀ fetchResult, handleCallTool baseUrl opMap toolName args fetchResult = .error e := by
  intro f
  simp only [handleCallTool, hmap, hbr]

theorem buildRequest_error_cases (baseUrl toolName : String)
    (mapping : ToolOperationMapping) (args : List (String × JsValue)) (e : McpError)
    (h : buildRequest baseUrl toolName mapping args = .error e) :
    processParams toolName args (paramList mapping.operation)
        ⟨mapping.path, [], defaultHeaders⟩ = .error e
    ∨ ∃ st, processParams toolName args (paramList mapping.operation)
        ⟨mapping.path, [], defaultHeaders⟩ = .ok st
        ∧ bodyStage toolName mapping.operation args st = .error e := by
  unfold buildRequest at h
  split at h
  next e' heq =>
    cases h
    exact Or.inl heq
  next st heq =>
    split at h
    next e2 heq2 =>
      cases h
      exact Or.inr ⟨st, heq, heq2⟩
    next pr heq2 => cases h

theorem handleCallTool_error_cases (baseUrl toolName : String)
    (opMap : List (String × ToolOperationMapping)) (mapping : ToolOperationMapping)
    (args : List (String × JsValue)) (f : Except String HttpResponse) (e : McpError)
    (hmap : List.lookup toolName opMap = some mapping)
    (h : handleCallTool baseUrl opMap toolName args f = .error e) :
    buildRequest baseUrl toolName mapping args = .error e
    ∨ e.code = .internalError := by
  simp only [handleCallTool, hmap] at h
  split at h
  next e' heq =>
    cases h
    exact Or.inl heq
  next req heq =>
    split at h
    next msg heq2 =>
      cases h
      exact Or.inr rfl
    next resp heq2 => cases h

/-! ## Claim C4 -/

/-- A tool definition placeholder for dispatch scenarios (the dispatch reads
only the mapping's path, method and operation). -/
def dummyTool : Tool := ⟨"t", "d", JSchema.empty⟩

/-- An upstream response used as the fetch oracle in concrete scenarios. -/
def dummyResp : HttpResponse := ⟨404, "Not Found", [], .ok ""⟩

/-- Required parameter `a` of the C4 scenarios. -/
def c4ParamA : Param := { name := "a", loc := "query", required := true }

/-- Required parameter `b` of the C4 counterexample. -/
def c4ParamB : Param := { name := "b", loc := "query", required := true }

/-- C4 counterexample operation: two required parameters, both missing. -/
def c4Op : Operation := { parameters? := some [.p c4ParamA, .p c4ParamB] }

def c4Mapping : ToolOperationMapping := ⟨"/x", "get", c4Op, dummyTool⟩

/-- Claim C4 counterexample: parameter `b` is required and has no argument,
so the claim — instantiated at `b` — demands an `InvalidArguments` error
naming `b`; the handler instead reports the FIRST missing required
parameter, `a`. -/
theorem claim_C4_counterexample :
    c4ParamB.required = true
    ∧ List.lookup c4ParamB.name ([] : List (String × JsValue)) = none
    ∧ handleCallTool "http://h" [("t", c4Mapping)] "t" [] (.ok dummyResp)
        = .error ⟨.invalidParams, msgMissingParam "a" "t"⟩
    ∧ msgMissingParam "a" "t" ≠ msgMissingParam "b" "t" := by
  refine ⟨rfl, rfl, rfl, by decide⟩

/-- Claim C4 (amended): when required parameters are missing, the dispatch
fails — before any HTTP request, for every fetch outcome — with
`InvalidParams` naming the FIRST missing required parameter in declaration
order; and supplying a value under the named parameter's name removes the
failure naming that parameter. -/
theorem claim_C4_amended (baseUrl toolName : String)
    (opMap : List (String × ToolOperationMapping)) (mapping : ToolOperationMapping)
    (args : List (String × JsValue)) (param : Param)
    (hmap : List.lookup toolName opMap = some mapping)
    (hfirst : firstMissingRequired args (paramList mapping.operation) = some param) :
    param.required = true
    ∧ List.lookup param.name args = none
    ∧ (∀ fetchResult, handleCallTool baseUrl opMap toolName args fetchResult
        = .error ⟨.invalidParams, msgMissingParam param.name toolName⟩)
    ∧ (∀ (args' : List (String × JsValue)) (v : JsValue)
        (fetchResult : Except String HttpResponse),
        List.lookup param.name args' = some v →
        handleCallTool baseUrl opMap toolName args' fetchResult
          ≠ .error ⟨.invalidParams, msgMissingParam param.name toolName⟩) := by
  obtain ⟨hreq, hmiss⟩ := firstMissingRequired_spec args _ param hfirst
  refine ⟨hreq, hmiss, ?_, ?_⟩
  · intro f
    exact handleCallTool_error_of_buildRequest baseUrl toolName opMap mapping args _ hmap
      (buildRequest_error_params baseUrl toolName mapping args _
        (processParams_first_missing toolName args _ _ param hfirst)) f
  · intro args' v f hv hcontr
    rcases handleCallTool_error_cases baseUrl toolName opMap mapping args' f _ hmap hcontr with
      hbr | hcode
    · rcases buildRequest_error_cases baseUrl toolName mapping args' _ hbr with hpp | ⟨st, _, hbody⟩
      · obtain ⟨q, _, _, hqmiss, hqe⟩ := processParams_error_missing toolName args' _ _ _ hpp
        have hmsg : msgMissingParam q.name toolName = msgMissingParam param.name toolName := by
          have := congrArg McpError.message hqe
          simpa using this.symm
        have : q.name = param.name := msgMissingParam_inj hmsg
        rw [this, hv] at hqmiss
        cases hqmiss
      · obtain ⟨_, hform⟩ := bodyStage_error_form toolName mapping.operation args' st _ hbody
        rcases hform with hb | ⟨m, hb⟩ | hb
        · exact msgMissingBody_ne_missingParam toolName param.name toolName hb.symm
        · exact msgStringify_ne_missingParam toolName m param.name toolName hb.symm
        · exact msgUnsupported_ne_missingParam toolName param.name toolName hb.symm
    · cases hcode

/-- Witness operation for the amended C4: one required parameter `a`. -/
def c4wOp : Operation := { parameters? := some [ParamOrRef.p c4ParamA] }

def c4wMapping : ToolOperationMapping := ⟨"/x", "get", c4wOp, dummyTool⟩

theorem claim_C4_amended_witness :
    handleCallTool "http://h" [("t", c4wMapping)] "t" [] (.ok dummyResp)
      = .error ⟨.invalidParams, msgMissingParam "a" "t"⟩
    ∧ handleCallTool "http://h" [("t", c4wMapping)] "t" [("a", .num 1)] (.ok dummyResp)
      ≠ .error ⟨.invalidParams, msgMissingParam "a" "t"⟩ := by
  have h := claim_C4_amended "http://h" "t" [("t", c4wMapping)] c4wMapping [] c4ParamA rfl rfl
  exact ⟨h.2.2.1 (.ok dummyResp), h.2.2.2 [("a", .num 1)] (.num 1) (.ok dummyResp) rfl⟩

/-! ## Claim C5 -/

/-- A request body declared only under `text/plain`. -/
def c5Rb : RequestBody := { content? := some [("text/plain", {})] }

/-- C5 counterexample operation: a required parameter `a` AND a non-JSON
request body. -/
def c5Op : Operation :=
  { parameters? := some [ParamOrRef.p c4ParamA],
    requestBody? := some (.rb c5Rb) }

def c5Mapping : ToolOperationMapping := ⟨"/x", "post", c5Op, dummyTool⟩

/-- Claim C5 counterexample: the operation declares a request body with no
`application/json` entry and the argument bag supplies `requestBody`, yet the
invocation fails with the missing-required-parameter error — the parameter
check runs first, so the claimed `UnsupportedContentType` failure does not
occur for this invocation. -/
theorem claim_C5_counterexample :
    jsonMedia? c5Rb = none
    ∧ handleCallTool "http://h" [("t", c5Mapping)] "t"
        [("requestBody", .str "x")] (.ok dummyResp)
        = .error ⟨.invalidParams, msgMissingParam "a" "t"⟩
    ∧ msgMissingParam "a" "t" ≠ msgUnsupported "t" := by
  refine ⟨rfl, rfl, by decide⟩

/-- Claim C5 (amended): provided the required-parameter checks pass, an
invocation of an operation whose request body has no `application/json`
content entry, with a `requestBody` value supplied, fails for every fetch
outcome (so before any HTTP request) with the unsupported-content-type
error; that error carries the same protocol code `InvalidParams` as the
argument errors but differs, as a value, from every missing-parameter,
missing-body and stringify-failure error. -/
theorem claim_C5_amended (baseUrl toolName : String)
    (opMap : List (String × ToolOperationMapping)) (mapping : ToolOperationMapping)
    (args : List (String × JsValue)) (rb : RequestBody) (v : JsValue) (st : ReqState)
    (hmap : List.lookup toolName opMap = some mapping)
    (hrb : mapping.operation.requestBody? = some (.rb rb))
    (hnj : jsonMedia? rb = none)
    (hv : List.lookup "requestBody" args = some v)
    (hparams : processParams toolName args (paramList mapping.operation)
        ⟨mapping.path, [], defaultHeaders⟩ = .ok st) :
    (∀ fetchResult, handleCallTool baseUrl opMap toolName args fetchResult
        = .error ⟨.invalidParams, msgUnsupported toolName⟩)
    ∧ (∀ p t, msgUnsupported toolName ≠ msgMissingParam p t)
    ∧ (∀ t, msgUnsupported toolName ≠ msgMissingBody t)
    ∧ (∀ t m, msgUnsupported toolName ≠ msgStringify t m) := by
  refine ⟨?_, fun p t => msgUnsupported_ne_missingParam toolName p t,
    fun t => msgUnsupported_ne_missingBody toolName t,
    fun t m => msgUnsupported_ne_stringify toolName t m⟩
  intro f
  have hbody : bodyStage toolName mapping.operation args st
      = .error ⟨.invalidParams, msgUnsupported toolName⟩ := by
    simp only [bodyStage, hrb, hv, hnj]
  exact handleCallTool_error_of_buildRequest baseUrl toolName opMap mapping args _ hmap
    (buildRequest_error_body baseUrl toolName mapping args st _ hparams hbody) f

/-- Witness operation for the amended C5: no parameters, a `text/plain`-only
request body. -/
def c5wOp : Operation := { requestBody? := some (.rb c5Rb) }

def c5wMapping : ToolOperationMapping := ⟨"/x", "post", c5wOp, dummyTool⟩

theorem claim_C5_amended_witness :
    handleCallTool "http://h" [("t", c5wMapping)] "t"
        [("requestBody", .str "x")] (.ok dummyResp)
      = .error ⟨.invalidParams, msgUnsupported "t"⟩
    ∧ msgUnsupported "t" ≠ msgMissingParam "a" "t" := by
  have h := claim_C5_amended "http://h" "t" [("t", c5wMapping)] c5wMapping
      [("requestBody", .str "x")] c5Rb (.str "x") ⟨"/x", [], defaultHeaders⟩
      rfl rfl rfl rfl rfl
  exact ⟨h.1 (.ok dummyResp), h.2.1 "a" "t"⟩

/-! ## Claim C10 -/

/-- Claim C10: an invocation of an operation that declares a (non-reference)
request body, where the supplied `requestBody` value cannot be serialized
(`JSON.stringify` throws), fails for every fetch outcome — so no HTTP
request is issued — with an `InvalidParams` error whose message cites the
tool name. -/
theorem claim_C10_unserializable_body (baseUrl toolName : String)
    (opMap : List (String × ToolOperationMapping)) (mapping : ToolOperationMapping)
    (args : List (String × JsValue)) (rb : RequestBody) (v : JsValue) (m : String)
    (hmap : List.lookup toolName opMap = some mapping)
    (hrb : mapping.operation.requestBody? = some (.rb rb))
    (hv : List.lookup "requestBody" args = some v)
    (hser : jsonStringify v = .error m) :
    ∃ e : McpError,
      (∀ fetchResult, handleCallTool baseUrl opMap toolName args fetchResult = .error e)
      ∧ e.code = .invalidParams
      ∧ ∃ a b, e.message = a ++ (toolName ++ b) := by
  cases hpp : processParams toolName args (paramList mapping.operation)
      ⟨mapping.path, [], defaultHeaders⟩ with
  | error e =>
    obtain ⟨q, _, _, _, he⟩ := processParams_error_missing toolName args _ _ e hpp
    subst he
    refine ⟨⟨.invalidParams, msgMissingParam q.name toolName⟩, ?_, rfl, ?_⟩
    · intro f
      exact handleCallTool_error_of_buildRequest baseUrl toolName opMap mapping args _ hmap
        (buildRequest_error_params baseUrl toolName mapping args _ hpp) f
    · refine ⟨"Missing required parameter '" ++ (q.name ++ "' for tool '"), "'.", ?_⟩
      show msgMissingParam q.name toolName = _
      unfold msgMissingParam
      rw [String.append_assoc, String.append_assoc]
  | ok st =>
    cases hm : jsonMedia? rb with
    | none =>
      have hbody : bodyStage toolName mapping.operation args st
          = .error ⟨.invalidParams, msgUnsupported toolName⟩ := by
        simp only [bodyStage, hrb, hv, hm]
      refine ⟨⟨.invalidParams, msgUnsupported toolName⟩, ?_, rfl,
        ⟨"Unsupported request body content type for tool '",
         "'. Only application/json is supported.", rfl⟩⟩
      intro f
      exact handleCallTool_error_of_buildRequest baseUrl toolName opMap mapping args _ hmap
        (buildRequest_error_body baseUrl toolName mapping args st _ hpp hbody) f
    | some mt =>
      have hbody : bodyStage toolName mapping.operation args st
          = .error ⟨.invalidParams, msgStringify toolName m⟩ := by
        simp only [bodyStage, hrb, hv, hm, hser]
      refine ⟨⟨.invalidParams, msgStringify toolName m⟩, ?_, rfl,
        ⟨"Failed to stringify requestBody for tool '", "': " ++ m, rfl⟩⟩
      intro f
      exact handleCallTool_error_of_buildRequest baseUrl toolName opMap mapping args _ hmap
        (buildRequest_error_body baseUrl toolName mapping args st _ hpp hbody) f

/-- C10 witness: a JSON request body whose supplied value is a BigInt, which
`JSON.stringify` refuses to serialize. -/
def c10Rb : RequestBody := { content? := some [("application/json", {})] }

def c10Op : Operation := { requestBody? := some (.rb c10Rb) }

def c10Mapping : ToolOperationMapping := ⟨"/x", "post", c10Op, dummyTool⟩

theorem claim_C10_witness :
    ∃ e : McpError,
      (∀ fetchResult, handleCallTool "http://h" [("t", c10Mapping)] "t"
          [("requestBody", .bigint 1)] fetchResult = .error e)
      ∧ e.code = .invalidParams
      ∧ ∃ a b, e.message = a ++ ("t" ++ b) :=
  claim_C10_unserializable_body "http://h" "t" [("t", c10Mapping)] c10Mapping
    [("requestBody", .bigint 1)] c10Rb (.bigint 1) "Do not know how to serialize a BigInt"
    rfl rfl rfl rfl

/-! ## Claim C6 -/

theorem processResponse_isError (toolName : String) (r : HttpResponse) :
    (processResponse toolName r).isError = !r.ok := by
  unfold processResponse
  split
  · rfl
  · rfl

/-- Claim C6: whenever the HTTP exchange completes — the fetch oracle yields
a response, including one whose body text cannot be read — the dispatch
returns a successful result whose error flag is set exactly when the HTTP
status lies outside [200, 300); it never surfaces the upstream-failure
error for a non-success status. -/
theorem claim_C6_http_status (baseUrl toolName : String)
    (opMap : List (String × ToolOperationMapping)) (mapping : ToolOperationMapping)
    (args : List (String × JsValue)) (req : HttpRequest) (resp : HttpResponse)
    (hmap : List.lookup toolName opMap = some mapping)
    (hreq : buildRequest baseUrl toolName mapping args = .ok req) :
    handleCallTool baseUrl opMap toolName args (.ok resp)
        = .ok (processResponse toolName resp)
    ∧ ((processResponse toolName resp).isError = true
        ↔ ¬ (200 ≤ resp.status ∧ resp.status < 300)) := by
  constructor
  · simp only [handleCallTool, hmap, hreq]
  · rw [processResponse_isError]
    simp only [HttpResponse.ok]
    constructor
    · intro hb
      simp only [Bool.not_eq_true', Bool.and_eq_false_iff, decide_eq_false_iff_not] at hb
      omega
    · intro hp
      simp only [Bool.not_eq_true', Bool.and_eq_false_iff, decide_eq_false_iff_not]
      omega

/-- The C6 witness mapping: a parameterless, bodyless GET operation. -/
def c6Op : Operation := {}

def c6Mapping : ToolOperationMapping := ⟨"/x", "get", c6Op, dummyTool⟩

/-- The request `buildRequest` constructs for the C6 witness. -/
def c6Req : HttpRequest :=
  ⟨"get".toUpper, buildUrl "http://h" ⟨"/x", [], defaultHeaders⟩, defaultHeaders, none⟩

theorem claim_C6_witness :
    handleCallTool "http://h" [("t", c6Mapping)] "t" [] (.ok dummyResp)
        = .ok (processResponse "t" dummyResp)
    ∧ ((processResponse "t" dummyResp).isError = true
        ↔ ¬ (200 ≤ dummyResp.status ∧ dummyResp.status < 300)) :=
  claim_C6_http_status "http://h" "t" [("t", c6Mapping)] c6Mapping [] c6Req dummyResp rfl rfl

/-! ## Claim C7 -/

theorem filter_filter_subsume {α : Type} (p q : α → Bool)
    (hpq : ∀ a, q a = true → p a = true) :
    ∀ l : List α, (l.filter p).filter q = l.filter q := by
  intro l
  induction l with
  | nil => rfl
  | cons a l ih =>
    by_cases hq : q a
    · have hp := hpq a hq
      simp [List.filter_cons, hp, hq, ih]
    · by_cases hp : p a
      · simp [List.filter_cons, hp, hq, ih]
      · simp [List.filter_cons, hp, hq, ih]

theorem filter_searchSet_ne (q : List (String × String)) (k v : String) {n : String}
    (h : k ≠ n) :
    (searchSet q k v).filter (fun e => e.1 == n) = q.filter (fun e => e.1 == n) := by
  induction q with
  | nil =>
    simp [searchSet, List.filter_cons, beq_eq_false_iff_ne.mpr h]
  | cons e rest ih =>
    obtain ⟨k', v'⟩ := e
    by_cases hk : k' = k
    · rw [show searchSet ((k', v') :: rest) k v
          = (k, v) :: rest.filter (fun e => e.1 != k) from by simp [searchSet, hk]]
      have hkn : (k == n) = false := beq_eq_false_iff_ne.mpr h
      have hk'n : (k' == n) = false := beq_eq_false_iff_ne.mpr (by rw [hk]; exact h)
      simp only [List.filter_cons, hkn, hk'n, Bool.false_eq_true, if_false]
      exact filter_filter_subsume (fun e => e.1 != k) (fun e => e.1 == n)
        (fun a ha => by
          have han : a.1 = n := beq_iff_eq.mp ha
          simp [bne, han, beq_eq_false_iff_ne.mpr (fun hc => h hc.symm)]) rest
    · rw [show searchSet ((k', v') :: rest) k v
          = (k', v') :: searchSet rest k v from by simp [searchSet, hk]]
      simp only [List.filter_cons]
      rw [ih]

theorem placeParam_preserves_query (st : ReqState) (param : Param) (v : JsValue)
    (n : String) (h : param.loc = "query" → param.name ≠ n) :
    (placeParam st param v).query.filter (fun e => e.1 == n)
      = st.query.filter (fun e => e.1 == n) := by
  unfold placeParam
  by_cases h1 : param.loc = "path"
  · rw [if_pos h1]
  · rw [if_neg h1]
    by_cases h2 : param.loc = "query"
    · rw [if_pos h2]
      have hn : param.name ≠ n := h h2
      cases v with
      | arr vs =>
        show (st.query ++ vs.map fun x => (param.name, jsToString x)).filter _ = _
        rw [List.filter_append]
        have hmap : ((vs.map fun x => (param.name, jsToString x)).filter
            (fun e => e.1 == n)) = [] := by
          apply List.filter_eq_nil_iff.mpr
          intro a ha
          obtain ⟨x, _, hx⟩ := List.mem_map.mp ha
          rw [← hx]
          simp [beq_eq_false_iff_ne.mpr hn]
        rw [hmap, List.append_nil]
      | null => exact filter_searchSet_ne st.query param.name _ hn
      | bool b => exact filter_searchSet_ne st.query param.name _ hn
      | num m => exact filter_searchSet_ne st.query param.name _ hn
      | str s => exact filter_searchSet_ne st.query param.name _ hn
      | obj o => exact filter_searchSet_ne st.query param.name _ hn
      | bigint m => exact filter_searchSet_ne st.query param.name _ hn
    · rw [if_neg h2]
      by_cases h3 : param.loc = "header"
      · rw [if_pos h3]
      · rw [if_neg h3]

theorem processParams_preserves_query (toolName : String) (args : List (String × JsValue))
    (n : String) :
    ∀ (ps : List ParamOrRef) (st st' : ReqState),
      (∀ q : Param, ParamOrRef.p q ∈ ps → q.loc = "query" → q.name ≠ n) →
      processParams toolName args ps st = .ok st' →
      st'.query.filter (fun e => e.1 == n) = st.query.filter (fun e => e.1 == n) := by
  intro ps
  induction ps with
  | nil =>
    intro st st' _ h
    cases h
    rfl
  | cons pr rest ih =>
    intro st st' hq h
    cases pr with
    | ref r =>
      exact ih st st' (fun q hm => hq q (List.mem_cons_of_mem _ hm)) h
    | p param =>
      unfold processParams at h
      cases hl : List.lookup param.name args with
      | none =>
        rw [hl] at h
        by_cases hr : param.required
        · rw [if_pos hr] at h
          cases h
        · rw [if_neg hr] at h
          exact ih st st' (fun q hm => hq q (List.mem_cons_of_mem _ hm)) h
      | some v =>
        rw [hl] at h
        have hst := ih (placeParam st param v) st'
          (fun q hm => hq q (List.mem_cons_of_mem _ hm)) h
        rw [hst]
        exact placeParam_preserves_query st param v n
          (fun hloc => hq param (List.mem_cons_self _ _) hloc)

theorem searchSet_append_of_none (q : List (String × String)) (k v : String)
    (h : q.filter (fun e => e.1 == k) = []) : searchSet q k v = q ++ [(k, v)] := by
  induction q with
  | nil => rfl
  | cons e rest ih =>
    obtain ⟨k', v'⟩ := e
    rw [List.filter_cons] at h
    by_cases hk : k' = k
    · subst hk
      simp at h
    · have hbeq : (k' == k) = false := beq_eq_false_iff_ne.mpr hk
      rw [hbeq] at h
      simp only [Bool.false_eq_true, if_false] at h
      rw [show searchSet ((k', v') :: rest) k v
          = (k', v') :: searchSet rest k v from by simp [searchSet, hk]]
      rw [ih h, List.cons_append]

theorem processParams_append (toolName : String) (args : List (String × JsValue)) :
    ∀ (ps1 ps2 : List ParamOrRef) (st : ReqState),
      processParams toolName args (ps1 ++ ps2) st =
        match processParams toolName args ps1 st with
        | .ok stm => processParams toolName args ps2 stm
        | .error e => .error e := by
  intro ps1
  induction ps1 with
  | nil => intro ps2 st; rfl
  | cons pr rest ih =>
    intro ps2 st
    cases pr with
    | ref r =>
      simp only [List.cons_append, processParams]
      exact ih ps2 st
    | p param =>
      simp only [List.cons_append, processParams]
      cases List.lookup param.name args with
      | none =>
        by_cases hr : param.required
        · simp only [if_pos hr]
        · simp only [if_neg hr]
          exact ih ps2 st
      | some v => exact ih ps2 (placeParam st param v)

/-- Claim C7: for a query-located parameter supplied in the argument bag
(with the §3 name-uniqueness invariant for query parameters), the query list
the handler constructs contains, under that parameter's name, exactly one
entry per element — string-coerced independently and in element order — when
the value is an array, and exactly one entry otherwise. -/
theorem claim_C7_query_serialization (toolName : String) (args : List (String × JsValue))
    (pre post : List ParamOrRef) (param : Param) (v : JsValue) (path0 : String)
    (st' : ReqState)
    (hloc : param.loc = "query")
    (hv : List.lookup param.name args = some v)
    (hpre : ∀ q : Param, ParamOrRef.p q ∈ pre → q.loc = "query" → q.name ≠ param.name)
    (hpost : ∀ q : Param, ParamOrRef.p q ∈ post → q.loc = "query" → q.name ≠ param.name)
    (hrun : processParams toolName args (pre ++ ParamOrRef.p param :: post)
        ⟨path0, [], defaultHeaders⟩ = .ok st') :
    st'.query.filter (fun e => e.1 == param.name)
      = match v with
        | .arr vs => vs.map (fun x => (param.name, jsToString x))
        | _ => [(param.name, jsToString v)] := by
  rw [processParams_append] at hrun
  cases hmid : processParams toolName args pre ⟨path0, [], defaultHeaders⟩ with
  | error e =>
    rw [hmid] at hrun
    cases hrun
  | ok stm =>
    rw [hmid] at hrun
    have hmidq : stm.query.filter (fun e => e.1 == param.name) = [] :=
      processParams_preserves_query toolName args param.name pre _ stm hpre hmid
    unfold processParams at hrun
    rw [hv] at hrun
    have hafter := processParams_preserves_query toolName args param.name post
      (placeParam stm param v) st' hpost hrun
    rw [hafter]
    unfold placeParam
    have hnp : param.loc ≠ "path" := by rw [hloc]; decide
    rw [if_neg hnp, if_pos hloc]
    cases v with
    | arr vs =>
      show ((stm.query ++ vs.map fun x => (param.name, jsToString x)).filter _) = _
      rw [List.filter_append, hmidq, List.nil_append]
      apply List.filter_eq_self.mpr
      intro a ha
      obtain ⟨x, _, hx⟩ := List.mem_map.mp ha
      rw [← hx]
      simp
    | null =>
      show ((searchSet stm.query param.name _).filter _) = _
      rw [searchSet_append_of_none stm.query param.name _ hmidq]
      rw [List.filter_append, hmidq, List.nil_append]
      simp
    | bool b =>
      show ((searchSet stm.query param.name _).filter _) = _
      rw [searchSet_append_of_none stm.query param.name _ hmidq]
      rw [List.filter_append, hmidq, List.nil_append]
      simp
    | num m =>
      show ((searchSet stm.query param.name _).filter _) = _
      rw [searchSet_append_of_none stm.query param.name _ hmidq]
      rw [List.filter_append, hmidq, List.nil_append]
      simp
    | str s =>
      show ((searchSet stm.query param.name _).filter _) = _
      rw [searchSet_append_of_none stm.query param.name _ hmidq]
      rw [List.filter_append, hmidq, List.nil_append]
      simp
    | obj o =>
      show ((searchSet stm.query param.name _).filter _) = _
      rw [searchSet_append_of_none stm.query param.name _ hmidq]
      rw [List.filter_append, hmidq, List.nil_append]
      simp
    | bigint m =>
      show ((searchSet stm.query param.name _).filter _) = _
      rw [searchSet_append_of_none stm.query param.name _ hmidq]
      rw [List.filter_append, hmidq, List.nil_append]
      simp

/-- C7 witness: an array-valued query argument. -/
def c7Param : Param := { name := "q", loc := "query" }

def c7Args : List (String × JsValue) := [("q", .arr [.num 1, .num 2])]

theorem claim_C7_witness :
    (⟨"/x", [("q", "1"), ("q", "2")], defaultHeaders⟩ : ReqState).query.filter
        (fun e => e.1 == "q")
      = [("q", "1"), ("q", "2")] := by
  have h := claim_C7_query_serialization "t" c7Args [] [] c7Param
      (.arr [.num 1, .num 2]) "/x" ⟨"/x", [("q", "1"), ("q", "2")], defaultHeaders⟩
      rfl rfl (by intro q hq; cases hq) (by intro q hq; cases hq) rfl
  simpa using h

/-! ## Claim C9 -/

theorem addParamStep_foldl_no_name (n : String) :
    ∀ (ps : List ParamOrRef) (st : List (String × JSchema) × List String),
      (∀ q : Param, ParamOrRef.p q ∈ ps → q.name = n → q.schema? = none) →
      List.lookup n (ps.foldl addParamStep st).1 = List.lookup n st.1
      ∧ (n ∈ (ps.foldl addParamStep st).2 ↔ n ∈ st.2) := by
  intro ps
  induction ps with
  | nil => intro st _; exact ⟨rfl, Iff.rfl⟩
  | cons pr rest ih =>
    intro st hq
    rw [List.foldl_cons]
    have hstep : List.lookup n (addParamStep st pr).1 = List.lookup n st.1
        ∧ (n ∈ (addParamStep st pr).2 ↔ n ∈ st.2) := by
      cases pr with
      | ref r => exact ⟨rfl, Iff.rfl⟩
      | p param =>
        by_cases hname : param.name = n
        · have hsch : param.schema? = none := hq param (List.mem_cons_self _ _) hname
          simp [addParamStep, hsch, openApiSchemaToJsonSchema]
        · cases hs : openApiSchemaToJsonSchema param.schema? with
          | none => simp [addParamStep, hs]
          | some ps0 =>
            simp only [addParamStep, hs]
            constructor
            · exact lookup_mapSet_ne st.1 _ (fun hc : n = param.name => hname hc.symm)
            · by_cases hr : param.required
              · simp only [hr, if_true, List.mem_append, List.mem_singleton]
                constructor
                · rintro (h | h)
                  · exact h
                  · exact absurd h.symm hname
                · intro h
                  exact Or.inl h
              · simp [hr]
    obtain ⟨h1, h2⟩ := ih (addParamStep st pr)
      (fun q hm hn => hq q (List.mem_cons_of_mem _ hm) hn)
    exact ⟨h1.trans hstep.1, h2.trans hstep.2⟩

theorem addBodyStep_no_name (n : String) (op : Operation)
    (st : List (String × JSchema) × List String) (hnb : n ≠ "requestBody") :
    List.lookup n (addBodyStep op st).1 = List.lookup n st.1
    ∧ (n ∈ (addBodyStep op st).2 ↔ n ∈ st.2) := by
  cases hrb : op.requestBody? with
  | none => simp [addBodyStep, hrb]
  | some rbr =>
    cases rbr with
    | ref r => simp [addBodyStep, hrb]
    | rb rb =>
      cases hjc : jsonContentSchema? rb with
      | none => simp [addBodyStep, hrb, hjc]
      | some sch =>
        cases hconv : openApiSchemaToJsonSchema (some sch) with
        | none => simp [addBodyStep, hrb, hjc, hconv]
        | some bs0 =>
          simp only [addBodyStep, hrb, hjc, hconv]
          refine ⟨lookup_mapSet_ne st.1 _ hnb, ?_⟩
          by_cases hr : rb.required
          · simp only [hr, if_true, List.mem_append, List.mem_singleton]
            constructor
            · rintro (h | h)
              · exact h
              · exact absurd h hnb
            · intro h
              exact Or.inl h
          · simp [hr]

/-- Claim C9: a required parameter whose schema node is absent is omitted
from both the properties map and the required list of the built tool's input
schema — yet invoking the tool without an argument under that parameter's
name still fails with the `InvalidParams` protocol error (before any HTTP
request), so the tool requires an argument its published schema does not
advertise.  The uniqueness hypothesis `hname` reflects the document
invariant that parameters sharing this name (in any location) carry no
schema, and `hnb` keeps the parameter distinct from the synthetic
`requestBody` property. -/
theorem claim_C9_unadvertised_required (path method baseUrl toolName : String)
    (opMap : List (String × ToolOperationMapping)) (mapping : ToolOperationMapping)
    (op : Operation) (param : Param) (args : List (String × JsValue))
    (hmem : ParamOrRef.p param ∈ paramList op)
    (hreq : param.required = true)
    (hschema : param.schema? = none)
    (hname : ∀ q : Param, ParamOrRef.p q ∈ paramList op → q.name = param.name →
      q.schema? = none)
    (hnb : param.name ≠ "requestBody")
    (hmap : List.lookup toolName opMap = some mapping)
    (hop : mapping.operation = op)
    (hargs : List.lookup param.name args = none) :
    List.lookup param.name (((buildTool path method op).inputSchema).properties?.getD [])
      = none
    ∧ param.name ∉ (((buildTool path method op).inputSchema).required?.getD [])
    ∧ ∃ e : McpError,
        (∀ fetchResult, handleCallTool baseUrl opMap toolName args fetchResult = .error e)
        ∧ e.code = .invalidParams := by
  have hfold := addParamStep_foldl_no_name param.name (paramList op) ([], []) hname
  have hbody := addBodyStep_no_name param.name op
    ((paramList op).foldl addParamStep ([], [])) hnb
  have hlook : List.lookup param.name
      (addBodyStep op ((paramList op).foldl addParamStep ([], []))).1 = none := by
    rw [hbody.1, hfold.1]
    rfl
  have hmem2 : param.name ∉
      (addBodyStep op ((paramList op).foldl addParamStep ([], []))).2 := by
    intro hc
    exact absurd (hfold.2.mp (hbody.2.mp hc)) (List.not_mem_nil _)
  refine ⟨?_, ?_, ?_⟩
  · simpa [buildTool, buildInputSchema, JSchema.properties?] using hlook
  · by_cases hz : (addBodyStep op ((paramList op).foldl addParamStep ([], []))).2 = []
    · simp [buildTool, buildInputSchema, JSchema.required?, hz]
    · simp only [buildTool, buildInputSchema, JSchema.required?, hz, if_false,
        Option.getD_some]
      exact hmem2
  · obtain ⟨e, he, hcode⟩ := processParams_error_of_missing toolName args (paramList op)
      ⟨param, hmem, hreq, hargs⟩ ⟨mapping.path, [], defaultHeaders⟩
    refine ⟨e, ?_, hcode⟩
    intro f
    apply handleCallTool_error_of_buildRequest baseUrl toolName opMap mapping args e hmap ?_ f
    apply buildRequest_error_params
    rw [hop]
    exact he

/-- C9 witness: a required query parameter `a` with no schema node. -/
def c9Param : Param := { name := "a", loc := "query", required := true }

def c9Op : Operation := { parameters? := some [ParamOrRef.p c9Param] }

def c9Mapping : ToolOperationMapping := ⟨"/x", "get", c9Op, dummyTool⟩

theorem claim_C9_witness :
    List.lookup "a" (((buildTool "/x" "get" c9Op).inputSchema).properties?.getD []) = none
    ∧ "a" ∉ (((buildTool "/x" "get" c9Op).inputSchema).required?.getD [])
    ∧ ∃ e : McpError,
        (∀ fetchResult, handleCallTool "http://h" [("t", c9Mapping)] "t" [] fetchResult
          = .error e)
        ∧ e.code = .invalidParams := by
  have h := claim_C9_unadvertised_required "/x" "get" "http://h" "t"
      [("t", c9Mapping)] c9Mapping c9Op c9Param [] (by simp [paramList, c9Op]) rfl rfl
      (by
        intro q hq hn
        simp [paramList, c9Op] at hq
        rw [hq]
        rfl)
      (by decide) rfl rfl rfl
  exact h

end OpenApiMcp
